import Mathlib

/-!
Verification development for the softrender rasterization pipeline
(src/renderer.rs, src/fb.rs, src/math.rs, src/shader.rs).

The Rust source works on `f32`; this embedding models the scalar
arithmetic exactly over `ℚ` (and over `ℝ` where the source takes a
square root, in `Vec2.length`).  IEEE NaN behaviour matters in exactly
two places of the source and is modelled explicitly there:

* the barycentric division `Vec3::new(efb, efc, efa) / area` in
  `plot_triangle` (0/0 when a degenerate covered pixel is hit) — the
  depth value is modelled by `F := Option ℚ` with `none` playing NaN,
  and `none < d` is false, as IEEE comparison with NaN is;
* the clamp in `tri_barycentric_interpolate_edge` (Rust `f32::max`
  returns the other operand on NaN, so `NaN.max(0).min(1) = 0`, which
  coincides with Lean's junk value `0/0 = 0` followed by the clamp).
-/

/-- Clip-space position, glam `Vec4` restricted to the fields the
renderer uses, with exact rational scalars. -/
structure Vec4 where
  x : ℚ
  y : ℚ
  z : ℚ
  w : ℚ
  deriving DecidableEq, Repr

/-- Screen-space point, glam `Vec2` with exact rational scalars. -/
abbrev Vec2 := ℚ × ℚ

/-- Rust `v[i]` on a glam `Vec4`: component indexing, 0 = x, 1 = y,
2 = z, 3 = w (the source only indexes with `plane.axis ∈ {0,1,2}` and
the literal 3). -/
def Vec4.comp (v : Vec4) : ℕ → ℚ
  | 0 => v.x
  | 1 => v.y
  | 2 => v.z
  | _ => v.w

/-- glam `Vec4::lerp(self, rhs, s) = self + (rhs - self) * s`,
componentwise. -/
def Vec4.lerp (a b : Vec4) (s : ℚ) : Vec4 :=
  ⟨a.x + (b.x - a.x) * s, a.y + (b.y - a.y) * s,
   a.z + (b.z - a.z) * s, a.w + (b.w - a.w) * s⟩

/-- Rust `ClipPlane` from src/math.rs: a sign (±1) and an axis (0, 1 or 2). -/
structure ClipPlane where
  sign : ℚ
  axis : ℕ
  deriving DecidableEq, Repr

/-- The `inside_clip_plane` closure of `clip_triangle`
(src/renderer.rs:196-204): even passes set `sign = -1` and test
`-w ≤ v[axis]`, odd passes set `sign = 1` and test `v[axis] ≤ w`. -/
def insideClipPlane (pl : ClipPlane) (w a : ℚ) : Bool :=
  if pl.sign = -1 then decide (-w ≤ a) else decide (a ≤ w)

/-- The sequence of the six clip planes traversed by the loop of
`clip_triangle` (src/renderer.rs:186-204): `clip_plane` starts as
`{sign: 1, axis: 2}`; each even iteration sets `sign := -1` and
`axis := (axis+1) % 3`, each odd iteration sets `sign := 1`.  Unrolled,
the visited planes are x-, x+, y-, y+, z-, z+. -/
def clipPlaneSeq : List ClipPlane :=
  [⟨-1, 0⟩, ⟨1, 0⟩, ⟨-1, 1⟩, ⟨1, 1⟩, ⟨-1, 2⟩, ⟨1, 2⟩]

/-- A clip-space vertex as the clipper carries it: position plus
varying record. -/
abbrev ClipVert (VI : Type) := Vec4 × VI

/-- The `interp_val` computation of `compute_clipping_intersection`
(src/renderer.rs:301-303):
`t = (s·to.w − to[a]) / ((s·to.w − to[a]) − (s·from.w − from[a]))`.
Division by zero never happens at the call sites (one endpoint is
inside, the other outside, so the two distances have opposite sign). -/
def interpVal (pl : ClipPlane) (fr tv : Vec4) : ℚ :=
  (pl.sign * tv.w - tv.comp pl.axis) /
    ((pl.sign * tv.w - tv.comp pl.axis) - (pl.sign * fr.w - fr.comp pl.axis))

/-- Rust `compute_clipping_intersection` (src/renderer.rs:290-317), with the
varying interpolation `tri_barycentric_interpolate_edge` abstracted as
the parameter `edgeInterp` (receiving `from.xy`, `to.xy`,
`intersect.xy`, `from_attrib`, `to_attrib`); the real instantiation
over ℝ square roots is `triBarycentricInterpolateEdgeR` below. -/
def computeClippingIntersection {VI : Type}
    (edgeInterp : Vec2 → Vec2 → Vec2 → VI → VI → VI)
    (fr tv : ClipVert VI) (pl : ClipPlane) : ClipVert VI :=
  let t := interpVal pl fr.1 tv.1
  let pos := Vec4.lerp tv.1 fr.1 t
  (pos, edgeInterp (fr.1.x, fr.1.y) (tv.1.x, tv.1.y) (pos.x, pos.y) fr.2 tv.2)

/-- One directed edge (prev → curr) of the Sutherland-Hodgman inner
loop (src/renderer.rs:208-246): both inside → emit curr; prev outside,
curr inside → emit intersection then curr; prev inside, curr outside →
emit intersection; both outside → emit nothing. -/
def clipEdge {VI : Type} (edgeInterp : Vec2 → Vec2 → Vec2 → VI → VI → VI)
    (pl : ClipPlane) (prev curr : ClipVert VI) : List (ClipVert VI) :=
  if insideClipPlane pl curr.1.w (curr.1.comp pl.axis) then
    (if insideClipPlane pl prev.1.w (prev.1.comp pl.axis) then []
     else [computeClippingIntersection edgeInterp prev curr pl]) ++ [(curr.1, curr.2)]
  else if insideClipPlane pl prev.1.w (prev.1.comp pl.axis) then
    [computeClippingIntersection edgeInterp prev curr pl]
  else []

/-- Index of the previous vertex with wraparound: Rust
`(vert_idx - 1).rem_euclid(len)` (src/renderer.rs:214). -/
def prevFin {n : ℕ} (i : Fin n) : Fin n :=
  ⟨(i.val + n - 1) % n, Nat.mod_lt _ i.pos⟩

/-- One full pass of the clipper against a single plane: the inner
`for vert_idx` loop of `clip_triangle`, concatenating the vertices each
edge emits. -/
def clipPass {VI : Type} (edgeInterp : Vec2 → Vec2 → Vec2 → VI → VI → VI)
    (pl : ClipPlane) (input : List (ClipVert VI)) : List (ClipVert VI) :=
  (List.finRange input.length).flatMap
    (fun i => clipEdge edgeInterp pl (input.get (prevFin i)) (input.get i))

/-- The polygon produced by the six clipping passes of `clip_triangle`
(src/renderer.rs:179-247), before fan triangulation.  The Rust
`output_verts` is an `ArrayVec` of capacity 6; the model is an
unbounded list, so a capacity overflow of the source shows up here as
a polygon of length > 6. -/
def clipPolygon {VI : Type} (edgeInterp : Vec2 → Vec2 → Vec2 → VI → VI → VI)
    (v0 v1 v2 : ClipVert VI) : List (ClipVert VI) :=
  clipPlaneSeq.foldl (fun acc pl => clipPass edgeInterp pl acc) [v0, v1, v2]

/-- A clipped output triangle: three positions and three varyings, the
`([Vec4; 3], [VI; 3])` tuples of the source. -/
abbrev ClipTri (VI : Type) := (Vec4 × Vec4 × Vec4) × (VI × VI × VI)

/-- Rust `clip_triangle` (src/renderer.rs:173-274): run the six passes, then
build a triangle fan `(v0, v(j+1), v(j+2))` for `j < n - 2`.  The Rust
`final_tris` is an `ArrayVec` of capacity 4; the model is an unbounded
list.  The `getD` defaults are never reached: the fan only indexes
positions `< n`. -/
def clipTriangle {VI : Type} (edgeInterp : Vec2 → Vec2 → Vec2 → VI → VI → VI)
    (v0 v1 v2 : ClipVert VI) : List (ClipTri VI) :=
  let out := clipPolygon edgeInterp v0 v1 v2
  if out.isEmpty then []
  else
    (List.range (out.length - 2)).map (fun j =>
      ((((out.getD 0 v0).1, (out.getD (j+1) v0).1, (out.getD (j+2) v0).1),
        ((out.getD 0 v0).2, (out.getD (j+1) v0).2, (out.getD (j+2) v0).2))))

/-- Trivial edge interpolation for the unit varying type: the
`Barycentric` impl for `()` in src/shader.rs returns `()`, so
`tri_barycentric_interpolate_edge` specialised to `()` is constantly
`()` whatever the barycentric weights are. -/
def unitEdgeInterp : Vec2 → Vec2 → Vec2 → Unit → Unit → Unit :=
  fun _ _ _ _ _ => ()


/-! Section: Clip-plane satisfaction -/

/-- Prop counterpart of `insideClipPlane` for a full vertex: the vertex
lies in the closed half-space of `pl`. -/
def SatPlane (pl : ClipPlane) (v : Vec4) : Prop :=
  if pl.sign = -1 then -v.w ≤ v.comp pl.axis else v.comp pl.axis ≤ v.w

theorem insideClipPlane_iff (pl : ClipPlane) (v : Vec4) :
    insideClipPlane pl v.w (v.comp pl.axis) = true ↔ SatPlane pl v := by
  unfold insideClipPlane SatPlane
  split <;> simp

/-- All six frustum inequalities at once:
`−w ≤ x ≤ w ∧ −w ≤ y ≤ w ∧ −w ≤ z ≤ w`. -/
def InsideFrustum (v : Vec4) : Prop :=
  -v.w ≤ v.x ∧ v.x ≤ v.w ∧ -v.w ≤ v.y ∧ v.y ≤ v.w ∧ -v.w ≤ v.z ∧ v.z ≤ v.w

/-- Strict version of `InsideFrustum` (all six inequalities strict). -/
def StrictlyInsideFrustum (v : Vec4) : Prop :=
  -v.w < v.x ∧ v.x < v.w ∧ -v.w < v.y ∧ v.y < v.w ∧ -v.w < v.z ∧ v.z < v.w

theorem satPlane_all_iff (v : Vec4) :
    (∀ pl ∈ clipPlaneSeq, SatPlane pl v) ↔ InsideFrustum v := by
  unfold InsideFrustum
  norm_num [clipPlaneSeq, SatPlane, Vec4.comp]

theorem comp_lerp (a b : Vec4) (t : ℚ) (i : ℕ) :
    (Vec4.lerp a b t).comp i = a.comp i + (b.comp i - a.comp i) * t := by
  rcases i with _|_|_|i <;> rfl

/-- The signed clip-space distance whose quotient is `interp_val`:
`D v = sign·v.w − v[axis]`. -/
def planeDist (pl : ClipPlane) (v : Vec4) : ℚ :=
  pl.sign * v.w - v.comp pl.axis

theorem interpVal_eq_planeDist (pl : ClipPlane) (fr tv : Vec4) :
    interpVal pl fr tv = planeDist pl tv / (planeDist pl tv - planeDist pl fr) := rfl

theorem planeDist_lerp (pl : ClipPlane) (u v : Vec4) (t : ℚ) :
    planeDist pl (Vec4.lerp u v t)
      = planeDist pl u + (planeDist pl v - planeDist pl u) * t := by
  unfold planeDist
  rw [comp_lerp]
  have hw : (Vec4.lerp u v t).w = u.w + (v.w - u.w) * t := rfl
  rw [hw]
  ring

/-- A clip half-space is closed under the convex combinations that
`Vec4.lerp` forms. -/
theorem satPlane_lerp (pl : ClipPlane) (a b : Vec4) (t : ℚ)
    (h0 : 0 ≤ t) (h1 : t ≤ 1) (ha : SatPlane pl a) (hb : SatPlane pl b) :
    SatPlane pl (Vec4.lerp a b t) := by
  have hw : (Vec4.lerp a b t).w = a.w + (b.w - a.w) * t := rfl
  have hc := comp_lerp a b t pl.axis
  by_cases hsgn : pl.sign = -1
  · unfold SatPlane at *
    rw [if_pos hsgn] at ha hb ⊢
    rw [hw, hc]
    nlinarith [mul_nonneg (sub_nonneg.2 h1) (show 0 ≤ a.comp pl.axis + a.w by linarith),
      mul_nonneg h0 (show 0 ≤ b.comp pl.axis + b.w by linarith)]
  · unfold SatPlane at *
    rw [if_neg hsgn] at ha hb ⊢
    rw [hw, hc]
    nlinarith [mul_nonneg (sub_nonneg.2 h1) (show 0 ≤ a.w - a.comp pl.axis by linarith),
      mul_nonneg h0 (show 0 ≤ b.w - b.comp pl.axis by linarith)]

theorem satPlane_iff_planeDist_pos (pl : ClipPlane) (hs : pl.sign = 1) (v : Vec4) :
    SatPlane pl v ↔ 0 ≤ planeDist pl v := by
  unfold SatPlane planeDist
  rw [hs, if_neg (by norm_num)]
  constructor <;> intro h <;> linarith

theorem satPlane_iff_planeDist_neg (pl : ClipPlane) (hs : pl.sign = -1) (v : Vec4) :
    SatPlane pl v ↔ planeDist pl v ≤ 0 := by
  unfold SatPlane planeDist
  rw [hs, if_pos rfl]
  constructor <;> intro h <;> linarith

/-- A quotient `a/(a−b)` of two values of opposite (weak) sign, not
both zero, lies in the unit interval. -/
theorem div_unit_interval (a b : ℚ) (hab : a * b ≤ 0) (hne : a ≠ b) :
    a - b ≠ 0 ∧ 0 ≤ a / (a - b) ∧ a / (a - b) ≤ 1 := by
  have hd : a - b ≠ 0 := sub_ne_zero.2 hne
  rcases mul_nonpos_iff.1 hab with ⟨ha, hb⟩ | ⟨ha, hb⟩
  · have hpos : 0 < a - b := lt_of_le_of_ne (by linarith) (Ne.symm hd)
    exact ⟨hd, div_nonneg ha hpos.le, (div_le_one hpos).2 (by linarith)⟩
  · have hneg : a - b < 0 := lt_of_le_of_ne (by linarith) hd
    refine ⟨hd, div_nonneg_iff.2 (Or.inr ⟨ha, hneg.le⟩), ?_⟩
    rw [div_le_one_iff]
    exact Or.inr (Or.inr ⟨hneg, by linarith⟩)

/-- At a genuine inside/outside transition the interpolation parameter
of `compute_clipping_intersection` lies in `[0,1]`, and the lerped
position lands exactly on the clip plane (hence satisfies it). -/
theorem interpVal_bounds (pl : ClipPlane) (hs : pl.sign = 1 ∨ pl.sign = -1)
    (fr tv : Vec4)
    (h : (SatPlane pl tv ∧ ¬ SatPlane pl fr) ∨ (¬ SatPlane pl tv ∧ SatPlane pl fr)) :
    0 ≤ interpVal pl fr tv ∧ interpVal pl fr tv ≤ 1 ∧
      SatPlane pl (Vec4.lerp tv fr (interpVal pl fr tv)) := by
  have hsigns : planeDist pl tv * planeDist pl fr ≤ 0 ∧ planeDist pl tv ≠ planeDist pl fr := by
    rcases hs with hs | hs
    · simp only [satPlane_iff_planeDist_pos pl hs] at h
      rcases h with ⟨h1, h2⟩ | ⟨h1, h2⟩
      · push_neg at h2
        exact ⟨by nlinarith, by intro hc; rw [hc] at h1; linarith⟩
      · push_neg at h1
        exact ⟨by nlinarith, by intro hc; rw [hc] at h1; linarith⟩
    · simp only [satPlane_iff_planeDist_neg pl hs] at h
      rcases h with ⟨h1, h2⟩ | ⟨h1, h2⟩
      · push_neg at h2
        exact ⟨by nlinarith, by intro hc; rw [hc] at h1; linarith⟩
      · push_neg at h1
        exact ⟨by nlinarith, by intro hc; rw [hc] at h1; linarith⟩
  obtain ⟨hd, h0, h1⟩ := div_unit_interval _ _ hsigns.1 hsigns.2
  rw [interpVal_eq_planeDist]
  refine ⟨h0, h1, ?_⟩
  have hzero : planeDist pl (Vec4.lerp tv fr (planeDist pl tv / (planeDist pl tv - planeDist pl fr))) = 0 := by
    rw [planeDist_lerp]
    field_simp
    ring
  rcases hs with hs | hs
  · rw [satPlane_iff_planeDist_pos pl hs, hzero]
  · rw [satPlane_iff_planeDist_neg pl hs, hzero]

/-! Section: Membership structure of one clipping pass -/

theorem mem_clipPass {VI : Type} {eI : Vec2 → Vec2 → Vec2 → VI → VI → VI}
    {pl : ClipPlane} {input : List (ClipVert VI)} {u : ClipVert VI}
    (hu : u ∈ clipPass eI pl input) :
    (∃ i : Fin input.length, u = input.get i ∧ SatPlane pl (input.get i).1) ∨
    (∃ i : Fin input.length,
      u = computeClippingIntersection eI (input.get (prevFin i)) (input.get i) pl ∧
      ((SatPlane pl (input.get i).1 ∧ ¬ SatPlane pl (input.get (prevFin i)).1) ∨
       (¬ SatPlane pl (input.get i).1 ∧ SatPlane pl (input.get (prevFin i)).1))) := by
  unfold clipPass at hu
  rw [List.mem_flatMap] at hu
  obtain ⟨i, -, hmem⟩ := hu
  unfold clipEdge at hmem
  by_cases hc : insideClipPlane pl (input.get i).1.w ((input.get i).1.comp pl.axis) = true
  · rw [if_pos hc] at hmem
    rcases List.mem_append.1 hmem with hl | hr
    · by_cases hp : insideClipPlane pl (input.get (prevFin i)).1.w
          ((input.get (prevFin i)).1.comp pl.axis) = true
      · rw [if_pos hp] at hl
        simp at hl
      · rw [if_neg hp] at hl
        rcases List.mem_singleton.1 hl with rfl
        refine Or.inr ⟨i, rfl, Or.inl ⟨(insideClipPlane_iff _ _).1 hc, ?_⟩⟩
        rw [← insideClipPlane_iff]
        simpa using hp
    · rcases List.mem_singleton.1 hr with rfl
      exact Or.inl ⟨i, rfl, (insideClipPlane_iff _ _).1 hc⟩
  · rw [if_neg hc] at hmem
    by_cases hp : insideClipPlane pl (input.get (prevFin i)).1.w
        ((input.get (prevFin i)).1.comp pl.axis) = true
    · rw [if_pos hp] at hmem
      rcases List.mem_singleton.1 hmem with rfl
      refine Or.inr ⟨i, rfl, Or.inr ⟨?_, (insideClipPlane_iff _ _).1 hp⟩⟩
      rw [← insideClipPlane_iff]
      simpa using hc
    · rw [if_neg hp] at hmem
      simp at hmem

theorem clipPass_sat_current {VI : Type} {eI : Vec2 → Vec2 → Vec2 → VI → VI → VI}
    {pl : ClipPlane} (hs : pl.sign = 1 ∨ pl.sign = -1)
    (input : List (ClipVert VI)) :
    ∀ u ∈ clipPass eI pl input, SatPlane pl u.1 := by
  intro u hu
  rcases mem_clipPass hu with ⟨i, rfl, hin⟩ | ⟨i, rfl, htrans⟩
  · exact hin
  · exact (interpVal_bounds pl hs (input.get (prevFin i)).1 (input.get i).1 htrans).2.2

theorem clipPass_preserves {VI : Type} {eI : Vec2 → Vec2 → Vec2 → VI → VI → VI}
    {pl pl' : ClipPlane} (hs : pl.sign = 1 ∨ pl.sign = -1)
    {input : List (ClipVert VI)} (hall : ∀ v ∈ input, SatPlane pl' v.1) :
    ∀ u ∈ clipPass eI pl input, SatPlane pl' u.1 := by
  intro u hu
  rcases mem_clipPass hu with ⟨i, rfl, -⟩ | ⟨i, rfl, htrans⟩
  · exact hall _ (List.get_mem input i i.isLt)
  · obtain ⟨h0, h1, -⟩ := interpVal_bounds pl hs (input.get (prevFin i)).1 (input.get i).1 htrans
    exact satPlane_lerp pl' _ _ _ h0 h1
      (hall _ (List.get_mem input i i.isLt))
      (hall _ (List.get_mem input (prevFin i) (prevFin i).isLt))

theorem foldl_clipPass_preserves {VI : Type} {eI : Vec2 → Vec2 → Vec2 → VI → VI → VI}
    {pl' : ClipPlane} (ps : List ClipPlane)
    (hps : ∀ pl ∈ ps, pl.sign = 1 ∨ pl.sign = -1)
    (input : List (ClipVert VI)) (hall : ∀ v ∈ input, SatPlane pl' v.1) :
    ∀ u ∈ ps.foldl (fun acc pl => clipPass eI pl acc) input, SatPlane pl' u.1 := by
  induction ps generalizing input with
  | nil => simpa using hall
  | cons p ps ih =>
    intro u hu
    rw [List.foldl_cons] at hu
    exact ih (fun pl h => hps pl (List.mem_cons_of_mem _ h)) _
      (clipPass_preserves (hps p (List.mem_cons_self _ _)) hall) u hu

theorem foldl_clipPass_sat {VI : Type} {eI : Vec2 → Vec2 → Vec2 → VI → VI → VI}
    (ps : List ClipPlane)
    (hps : ∀ pl ∈ ps, pl.sign = 1 ∨ pl.sign = -1)
    (input : List (ClipVert VI)) :
    ∀ u ∈ ps.foldl (fun acc pl => clipPass eI pl acc) input, ∀ pl ∈ ps, SatPlane pl u.1 := by
  induction ps generalizing input with
  | nil =>
    intro u hu pl hpl
    simp at hpl
  | cons p ps ih =>
    intro u hu pl hpl
    rw [List.foldl_cons] at hu
    rcases List.mem_cons.1 hpl with rfl | hpl'
    · exact foldl_clipPass_preserves ps (fun q h => hps q (List.mem_cons_of_mem _ h)) _
        (clipPass_sat_current (hps pl (List.mem_cons_self _ _)) input) u hu
    · exact ih (fun q h => hps q (List.mem_cons_of_mem _ h)) _ u hu pl hpl'

theorem clipPlaneSeq_signs : ∀ pl ∈ clipPlaneSeq, pl.sign = 1 ∨ pl.sign = -1 := by
  intro pl h
  fin_cases h <;> norm_num

theorem clipPolygon_sat {VI : Type} (eI : Vec2 → Vec2 → Vec2 → VI → VI → VI)
    (v0 v1 v2 : ClipVert VI) :
    ∀ u ∈ clipPolygon eI v0 v1 v2, ∀ pl ∈ clipPlaneSeq, SatPlane pl u.1 :=
  foldl_clipPass_sat clipPlaneSeq clipPlaneSeq_signs _

theorem getD_mem_of_lt {A : Type} (l : List A) (d : A) (i : ℕ) (h : i < l.length) :
    l.getD i d ∈ l := by
  induction l generalizing i with
  | nil => simp at h
  | cons a t ih =>
    cases i with
    | zero => simp [List.getD]
    | succ k =>
      simp only [List.getD_cons_succ]
      exact List.mem_cons_of_mem _ (ih k (by simpa using h))

theorem mem_of_clipTriangle {VI : Type} {eI : Vec2 → Vec2 → Vec2 → VI → VI → VI}
    {v0 v1 v2 : ClipVert VI} {tri : ClipTri VI}
    (h : tri ∈ clipTriangle eI v0 v1 v2) :
    ∃ a b c : ClipVert VI, a ∈ clipPolygon eI v0 v1 v2 ∧ b ∈ clipPolygon eI v0 v1 v2 ∧
      c ∈ clipPolygon eI v0 v1 v2 ∧ tri = ((a.1, b.1, c.1), (a.2, b.2, c.2)) := by
  simp only [clipTriangle] at h
  split at h
  · simp at h
  · rw [List.mem_map] at h
    obtain ⟨j, hj, rfl⟩ := h
    rw [List.mem_range] at hj
    have hlen : j + 2 < (clipPolygon eI v0 v1 v2).length := by omega
    have h0 : 0 < (clipPolygon eI v0 v1 v2).length := by omega
    have h1 : j + 1 < (clipPolygon eI v0 v1 v2).length := by omega
    exact ⟨_, _, _, getD_mem_of_lt _ v0 0 h0, getD_mem_of_lt _ v0 (j+1) h1,
      getD_mem_of_lt _ v0 (j+2) hlen, rfl⟩

/-- Claim C3: every triangle returned by `clip_triangle` has all three
clip-space vertex positions inside the canonical frustum:
`−w ≤ x ≤ w ∧ −w ≤ y ≤ w ∧ −w ≤ z ≤ w` for each vertex.  Each pass
establishes its own plane and preserves (by convexity) the planes
already processed. -/
theorem clip_triangle_inside_invariant {VI : Type}
    (eI : Vec2 → Vec2 → Vec2 → VI → VI → VI) (v0 v1 v2 : ClipVert VI)
    (tri : ClipTri VI) (htri : tri ∈ clipTriangle eI v0 v1 v2) :
    InsideFrustum tri.1.1 ∧ InsideFrustum tri.1.2.1 ∧ InsideFrustum tri.1.2.2 := by
  obtain ⟨a, b, c, ha, hb, hc, rfl⟩ := mem_of_clipTriangle htri
  have hsat := clipPolygon_sat eI v0 v1 v2
  exact ⟨(satPlane_all_iff _).1 (fun pl hpl => hsat a ha pl hpl),
    (satPlane_all_iff _).1 (fun pl hpl => hsat b hb pl hpl),
    (satPlane_all_iff _).1 (fun pl hpl => hsat c hc pl hpl)⟩

/-! Section: Identity behaviour of the clipper on wholly-inside triangles -/

theorem flatMap_singleton_map {A B : Type} (l : List A) (g : A → B) :
    l.flatMap (fun i => [g i]) = l.map g := by
  induction l with
  | nil => rfl
  | cons a t ih => simp [List.flatMap_cons, ih]

theorem clipPass_all_inside {VI : Type} (eI : Vec2 → Vec2 → Vec2 → VI → VI → VI)
    (pl : ClipPlane) (input : List (ClipVert VI))
    (h : ∀ v ∈ input, SatPlane pl v.1) : clipPass eI pl input = input := by
  unfold clipPass
  have hedge : ∀ i : Fin input.length,
      clipEdge eI pl (input.get (prevFin i)) (input.get i) = [input.get i] := by
    intro i
    unfold clipEdge
    rw [if_pos ((insideClipPlane_iff _ _).2 (h _ (List.get_mem input i i.isLt))),
      if_pos ((insideClipPlane_iff _ _).2 (h _ (List.get_mem input (prevFin i) (prevFin i).isLt)))]
    rfl
  simp only [hedge]
  rw [flatMap_singleton_map, List.finRange_map_get]

theorem foldl_clipPass_all_inside {VI : Type} (eI : Vec2 → Vec2 → Vec2 → VI → VI → VI)
    (ps : List ClipPlane) (input : List (ClipVert VI))
    (h : ∀ v ∈ input, ∀ pl ∈ ps, SatPlane pl v.1) :
    ps.foldl (fun acc pl => clipPass eI pl acc) input = input := by
  induction ps with
  | nil => rfl
  | cons p ps ih =>
    rw [List.foldl_cons,
      clipPass_all_inside eI p input (fun v hv => h v hv p (List.mem_cons_self _ _)),
      ih (fun v hv pl hpl => h v hv pl (List.mem_cons_of_mem _ hpl))]

theorem strictlyInside_satPlane (v : Vec4) (h : StrictlyInsideFrustum v) :
    ∀ pl ∈ clipPlaneSeq, SatPlane pl v := by
  obtain ⟨h1, h2, h3, h4, h5, h6⟩ := h
  exact (satPlane_all_iff v).2 ⟨h1.le, h2.le, h3.le, h4.le, h5.le, h6.le⟩

/-- Claim C8: a triangle whose three vertices are strictly inside the
canonical frustum passes through `clip_triangle` unchanged: exactly one
output triangle, with the same three positions and the same three
varyings in the same order. -/
theorem clip_triangle_preserves_inside {VI : Type}
    (eI : Vec2 → Vec2 → Vec2 → VI → VI → VI) (p0 p1 p2 : Vec4) (a0 a1 a2 : VI)
    (h0 : StrictlyInsideFrustum p0) (h1 : StrictlyInsideFrustum p1)
    (h2 : StrictlyInsideFrustum p2) :
    clipTriangle eI (p0, a0) (p1, a1) (p2, a2) = [((p0, p1, p2), (a0, a1, a2))] := by
  have hpoly : clipPolygon eI (p0, a0) (p1, a1) (p2, a2) = [(p0, a0), (p1, a1), (p2, a2)] := by
    unfold clipPolygon
    refine foldl_clipPass_all_inside eI clipPlaneSeq _ ?_
    intro v hv
    rcases List.mem_cons.1 hv with rfl | hv
    · exact strictlyInside_satPlane _ h0
    rcases List.mem_cons.1 hv with rfl | hv
    · exact strictlyInside_satPlane _ h1
    rcases List.mem_cons.1 hv with rfl | hv
    · exact strictlyInside_satPlane _ h2
    · simp at hv
  simp only [clipTriangle, hpoly]
  rfl

/-- Claim C2: refuted on the code.  The source promises (doc comment of
`clip_triangle` and the fixed `ArrayVec` capacities) that the working
polygon never exceeds 6 vertices and at most 4 triangles are returned,
but this triangle — lying in the plane z = 0 with w = 1, cutting three
corners of the x/y unit square while containing the fourth — clips to
a 7-gon and a 5-triangle fan.  In the Rust code the 7th
`output_verts.push` (reached during the `y ≤ w` pass) overflows the
capacity-6 `ArrayVec` and panics. -/
theorem clip_triangle_capacity_overflow :
    (clipPolygon unitEdgeInterp (⟨0, 5/2, 0, 1⟩, ()) (⟨5/2, -5/2, 0, 1⟩, ())
        (⟨-3/2, -1/2, 0, 1⟩, ())).length = 7 ∧
    (clipTriangle unitEdgeInterp (⟨0, 5/2, 0, 1⟩, ()) (⟨5/2, -5/2, 0, 1⟩, ())
        (⟨-3/2, -1/2, 0, 1⟩, ())).length = 5 := by
  have hpoly : clipPolygon unitEdgeInterp (⟨0, 5/2, 0, 1⟩, ()) (⟨5/2, -5/2, 0, 1⟩, ())
      (⟨-3/2, -1/2, 0, 1⟩, ()) =
      [(⟨-1, 1/2, 0, 1⟩, ()), (⟨-3/4, 1, 0, 1⟩, ()), (⟨3/4, 1, 0, 1⟩, ()),
       (⟨1, 1/2, 0, 1⟩, ()), (⟨1, -1, 0, 1⟩, ()), (⟨-1/2, -1, 0, 1⟩, ()),
       (⟨-1, -3/4, 0, 1⟩, ())] := by
    norm_num [clipPolygon, clipPlaneSeq, clipPass, clipEdge,
      computeClippingIntersection, interpVal, insideClipPlane, Vec4.lerp, Vec4.comp,
      prevFin, unitEdgeInterp, List.finRange, List.flatMap]
  refine ⟨by rw [hpoly]; rfl, ?_⟩
  simp only [clipTriangle, hpoly]
  rfl

/-- Witness for claim C3: a concrete strictly-inside triangle whose
(unique) clipped output triangle demonstrably satisfies the invariant. -/
theorem clip_triangle_inside_invariant_witness :
    (((⟨0, 0, 0, 1⟩, ⟨1/2, 0, 0, 1⟩, ⟨0, 1/2, 0, 1⟩), ((), (), ())) ∈
        clipTriangle unitEdgeInterp ((⟨0, 0, 0, 1⟩ : Vec4), ())
          (⟨1/2, 0, 0, 1⟩, ()) (⟨0, 1/2, 0, 1⟩, ())) ∧
      (InsideFrustum ⟨0, 0, 0, 1⟩ ∧ InsideFrustum ⟨1/2, 0, 0, 1⟩ ∧
        InsideFrustum ⟨0, 1/2, 0, 1⟩) := by
  have hmem : (((⟨0, 0, 0, 1⟩, ⟨1/2, 0, 0, 1⟩, ⟨0, 1/2, 0, 1⟩), ((), (), ())) ∈
      clipTriangle unitEdgeInterp ((⟨0, 0, 0, 1⟩ : Vec4), ())
        (⟨1/2, 0, 0, 1⟩, ()) (⟨0, 1/2, 0, 1⟩, ())) := by
    norm_num [clipTriangle, clipPolygon, clipPlaneSeq, clipPass, clipEdge,
      computeClippingIntersection, interpVal, insideClipPlane, Vec4.lerp, Vec4.comp,
      prevFin, unitEdgeInterp, List.finRange, List.flatMap]
  exact ⟨hmem, clip_triangle_inside_invariant unitEdgeInterp _ _ _ _ hmem⟩

/-- Witness for claim C8 at a concrete strictly-inside triangle. -/
theorem clip_triangle_preserves_inside_witness :
    (StrictlyInsideFrustum ⟨1/4, 0, 0, 1⟩ ∧ StrictlyInsideFrustum ⟨0, 1/4, 0, 1⟩ ∧
      StrictlyInsideFrustum ⟨0, 0, 1/4, 1⟩) ∧
    clipTriangle unitEdgeInterp (⟨1/4, 0, 0, 1⟩, ()) (⟨0, 1/4, 0, 1⟩, ())
        (⟨0, 0, 1/4, 1⟩, ()) =
      [((⟨1/4, 0, 0, 1⟩, ⟨0, 1/4, 0, 1⟩, ⟨0, 0, 1/4, 1⟩), ((), (), ()))] := by
  have h0 : StrictlyInsideFrustum ⟨1/4, 0, 0, 1⟩ := by norm_num [StrictlyInsideFrustum]
  have h1 : StrictlyInsideFrustum ⟨0, 1/4, 0, 1⟩ := by norm_num [StrictlyInsideFrustum]
  have h2 : StrictlyInsideFrustum ⟨0, 0, 1/4, 1⟩ := by norm_num [StrictlyInsideFrustum]
  exact ⟨⟨h0, h1, h2⟩, clip_triangle_preserves_inside unitEdgeInterp _ _ _ _ _ _ h0 h1 h2⟩

/-! Section: The real (square-root based) varying interpolation of the clipper -/

/-- glam `Vec2::length` over ℝ: `sqrt (x² + y²)`. -/
noncomputable def vec2Length (v : ℝ × ℝ) : ℝ :=
  Real.sqrt (v.1 ^ 2 + v.2 ^ 2)

/-- Rust `InverseLerp for Vec2` (src/math.rs:20-24):
`(point − self).length() / (to − self).length()`. -/
noncomputable def inverse_lerp (self tv point : ℝ × ℝ) : ℝ :=
  vec2Length (point.1 - self.1, point.2 - self.2) /
    vec2Length (tv.1 - self.1, tv.2 - self.2)

/-- Rust `tri_barycentric_interpolate_edge` (src/renderer.rs:332-344) for the
`f32` `Barycentric` instance (src/shader.rs:13-21):
`barycentric_y = from.inverse_lerp(to, point)`, clamp the pair
`(1 − y, y)` to `[0,1]²` componentwise, then
`attrib1 * c.x + attrib2 * c.y`.  glam's `clamp` is
`self.max(min).min(max)`; on a NaN input Rust's `f32::max`/`f32::min`
return the non-NaN operand, so `min (max NaN 0) 1 = 0` — exactly the
value this ℝ model produces, since the NaN only arises from the
division `0 / 0`, which is `0` in Lean. -/
noncomputable def tri_barycentric_interpolate_edge
    (fr tv point : ℝ × ℝ) (attrib1 attrib2 : ℝ) : ℝ :=
  let b := inverse_lerp fr tv point
  attrib1 * min (max (1 - b) 0) 1 + attrib2 * min (max b 0) 1

/-- The concrete `edgeInterp` the renderer uses for a scalar `f32`
varying: cast the ℚ clip-space xy pairs to ℝ and call
`tri_barycentric_interpolate_edge`. -/
noncomputable def realEdgeInterp : Vec2 → Vec2 → Vec2 → ℝ → ℝ → ℝ :=
  fun f t p a1 a2 =>
    tri_barycentric_interpolate_edge ((f.1 : ℝ), (f.2 : ℝ)) ((t.1 : ℝ), (t.2 : ℝ))
      ((p.1 : ℝ), (p.2 : ℝ)) a1 a2

/-- Claim C1: refuted on the code (the spec itself flags this as the
required behaviour the source deviates from).  Clipping the edge from
`prev = (0,0,2,1)` (outside the far plane `z ≤ w`) to `curr = (0,0,0,1)`
(inside) against the far plane gives `t = 1/2` and intersection position
`(0,0,1,1)`, so the varying should be the lerp at the same `t`:
`curr_attrib + (prev_attrib − curr_attrib)·t = 1/2` for
`prev_attrib = 0`, `curr_attrib = 1`.  But the code interpolates the
varying from the ratio of xy-plane distances, and both endpoints share
`xy = (0,0)`: the ratio is `0/0` (NaN, clamped to 0 by Rust; junk value
0 in this model, identically clamped), so the produced varying is
`prev_attrib = 0 ≠ 1/2`. -/
theorem clipping_intersection_attrib_mismatch :
    insideClipPlane ⟨1, 2⟩ 1 0 = true ∧ insideClipPlane ⟨1, 2⟩ 1 2 = false ∧
    interpVal ⟨1, 2⟩ (⟨0, 0, 2, 1⟩ : Vec4) (⟨0, 0, 0, 1⟩ : Vec4) = 1/2 ∧
    computeClippingIntersection realEdgeInterp ((⟨0, 0, 2, 1⟩ : Vec4), (0 : ℝ))
        ((⟨0, 0, 0, 1⟩ : Vec4), (1 : ℝ)) ⟨1, 2⟩ =
      ((⟨0, 0, 1, 1⟩ : Vec4), (0 : ℝ)) ∧
    (1 : ℝ) + ((0 : ℝ) - 1) * (1/2 : ℝ) ≠ (0 : ℝ) := by
  refine ⟨by norm_num [insideClipPlane], by norm_num [insideClipPlane], ?_, ?_, by norm_num⟩
  · norm_num [interpVal, Vec4.comp]
  · unfold computeClippingIntersection realEdgeInterp tri_barycentric_interpolate_edge
      inverse_lerp vec2Length interpVal
    norm_num [Vec4.comp, Vec4.lerp]

/-! Section: The index iteration of draw -/

/-- One iteration of the `draw` loop (src/renderer.rs:77-80): read
`ibo[i]`, `ibo[i+1]`, `ibo[i+2]`.  Rust slice indexing panics when the
index is out of range; the panic is modelled as `none`. -/
def fetchTriple (ibo : List ℕ) (i : ℕ) : Option (ℕ × ℕ × ℕ) :=
  match ibo.get? i, ibo.get? (i+1), ibo.get? (i+2) with
  | some a, some b, some c => some (a, b, c)
  | _, _, _ => none

/-- Run `fetchTriple` at every loop index in order, failing as the Rust
loop does as soon as one read panics. -/
def collectTriples (ibo : List ℕ) : List ℕ → Option (List (ℕ × ℕ × ℕ))
  | [] => some []
  | k :: ks =>
    match fetchTriple ibo k, collectTriples ibo ks with
    | some t, some ts => some (t :: ts)
    | _, _ => none

/-- The triple iteration of `draw` (src/renderer.rs:77):
`for i in (0..ibo.len()).step_by(3)` visits `i = 3k` for
`k < ⌈len/3⌉ = (len+2)/3`. -/
def drawTriples (ibo : List ℕ) : Option (List (ℕ × ℕ × ℕ)) :=
  collectTriples ibo ((List.range ((ibo.length + 2) / 3)).map (fun k => 3 * k))

theorem collectTriples_eq_none_of_mem (ibo : List ℕ) (ks : List ℕ) (k : ℕ)
    (hk : k ∈ ks) (hfail : fetchTriple ibo k = none) :
    collectTriples ibo ks = none := by
  induction ks with
  | nil => simp at hk
  | cons a t ih =>
    rcases List.mem_cons.1 hk with rfl | hk'
    · unfold collectTriples
      rw [hfail]
    · unfold collectTriples
      rw [ih hk']
      cases fetchTriple ibo a <;> rfl

/-- Claim C4 counterexample: an index buffer of length 4.  The claim
says the trailing index is ignored and the call completes; in the code
the second loop iteration (`i = 3`) reads `ibo[4]` and `ibo[5]`, out of
range — a panic, `none` in the model. -/
theorem draw_trailing_index_not_ignored : drawTriples [0, 0, 0, 0] = none := by
  rfl

/-- Claim C4 (amended): an index buffer whose length is not a multiple
of 3 is not handled by ignoring the trailing indices — the final,
incomplete triple makes `draw` read past the end of the buffer and the
call fails (index-out-of-bounds panic). -/
theorem draw_incomplete_triple_fails (ibo : List ℕ) (h : ibo.length % 3 ≠ 0) :
    drawTriples ibo = none := by
  have hlen : 1 ≤ ibo.length := by omega
  have hm : 1 ≤ (ibo.length + 2) / 3 := by omega
  set k0 := (ibo.length + 2) / 3 - 1 with hk0
  have hoob : ibo.length ≤ 3 * k0 + 2 := by omega
  have hget : ibo.get? (3 * k0 + 2) = none := by
    rw [List.get?_eq_none]
    exact hoob
  have hfail : fetchTriple ibo (3 * k0) = none := by
    unfold fetchTriple
    rw [hget]
    cases ibo.get? (3 * k0) <;> cases ibo.get? (3 * k0 + 1) <;> rfl
  refine collectTriples_eq_none_of_mem ibo _ (3 * k0) ?_ hfail
  exact List.mem_map.2 ⟨k0, List.mem_range.2 (by omega), rfl⟩

/-- Witness for the amended claim C4 at a concrete two-element buffer. -/
theorem draw_incomplete_triple_fails_witness :
    ([5, 6] : List ℕ).length % 3 ≠ 0 ∧ drawTriples [5, 6] = none :=
  ⟨by norm_num, draw_incomplete_triple_fails [5, 6] (by norm_num)⟩

/-! Section: The screen-space matrix -/

/-- glam `Mat4` by columns, restricted to ℚ entries. -/
structure Mat4 where
  col0 : Vec4
  col1 : Vec4
  col2 : Vec4
  col3 : Vec4
  deriving DecidableEq, Repr

/-- Rust `calculate_screenspace_matrix` (src/renderer.rs:21-30): columns
`((w−1)/2, 0, 0, 0)`, `(0, (h−1)/2, 0, 0)`, `(0, 0, 1, 0)`,
`((w−1)/2, (h−1)/2, 1, 1)`. -/
def calculate_screenspace_matrix (width height : ℚ) : Mat4 :=
  ⟨⟨(width - 1) / 2, 0, 0, 0⟩,
   ⟨0, (height - 1) / 2, 0, 0⟩,
   ⟨0, 0, 1, 0⟩,
   ⟨(width - 1) / 2, (height - 1) / 2, 1, 1⟩⟩

/-- glam column-major matrix–vector product:
`M·v = col0·v.x + col1·v.y + col2·v.z + col3·v.w`. -/
def Mat4.mulVec (m : Mat4) (v : Vec4) : Vec4 :=
  ⟨m.col0.x * v.x + m.col1.x * v.y + m.col2.x * v.z + m.col3.x * v.w,
   m.col0.y * v.x + m.col1.y * v.y + m.col2.y * v.z + m.col3.y * v.w,
   m.col0.z * v.x + m.col1.z * v.y + m.col2.z * v.z + m.col3.z * v.w,
   m.col0.w * v.x + m.col1.w * v.y + m.col2.w * v.z + m.col3.w * v.w⟩

/-- Claim C6 counterexample: the screen-space matrix does not leave z
unchanged — applying it to `(0, 0, 5, 1)` yields third component `6`,
because the translation column carries a `1` in its z entry. -/
theorem screenspace_matrix_z_counterexample :
    ((calculate_screenspace_matrix 4 4).mulVec ⟨0, 0, 5, 1⟩).z = 6 ∧ (6 : ℚ) ≠ 5 := by
  constructor
  · norm_num [calculate_screenspace_matrix, Mat4.mulVec]
  · norm_num

/-- Claim C6 (amended): for every width and height the screen-space
matrix maps NDC `x = −1 → 0`, `x = 1 → w−1`, `y = −1 → 0`,
`y = 1 → h−1`; the third component of `M·(x,y,z,1)` is `z + 1`, not `z`
(the pipeline only consumes the x and y components). -/
theorem screenspace_matrix_mapping (w h x y z : ℚ) :
    ((calculate_screenspace_matrix w h).mulVec ⟨-1, y, z, 1⟩).x = 0 ∧
    ((calculate_screenspace_matrix w h).mulVec ⟨1, y, z, 1⟩).x = w - 1 ∧
    ((calculate_screenspace_matrix w h).mulVec ⟨x, -1, z, 1⟩).y = 0 ∧
    ((calculate_screenspace_matrix w h).mulVec ⟨x, 1, z, 1⟩).y = h - 1 ∧
    ((calculate_screenspace_matrix w h).mulVec ⟨x, y, z, 1⟩).z = z + 1 := by
  unfold calculate_screenspace_matrix Mat4.mulVec
  refine ⟨by ring, by ring, by ring, by ring, by ring⟩

/-! Section: The framebuffer -/

/-- Rust `Framebuffer<T>` (src/fb.rs): width, height and the linear storage. -/
structure Framebuffer (T : Type) where
  width : ℕ
  height : ℕ
  buf : List T

/-- Rust `plot_pixel` (src/fb.rs:19-24): invert y so the origin is bottom
left, then store at linear index `(height−1−y)·width + x`.  Rust
`self.buf[idx] = value` panics out of range; `List.set` out of range is
a no-op — the claims below only evaluate it in bounds, where the two
agree. -/
def Framebuffer.plot_pixel {T : Type} (fb : Framebuffer T) (x y : ℕ) (v : T) :
    Framebuffer T :=
  { fb with buf := fb.buf.set ((fb.height - 1 - y) * fb.width + x) v }

/-- Rust `get_pixel` (src/fb.rs:26-30): load from the same y-flipped linear
index (with a junk default for the out-of-range case that panics in
Rust). -/
def Framebuffer.get_pixel {T : Type} [Inhabited T] (fb : Framebuffer T) (x y : ℕ) : T :=
  fb.buf.getD ((fb.height - 1 - y) * fb.width + x) default

theorem set_getD_self {A : Type} (l : List A) (i : ℕ) (a d : A) (h : i < l.length) :
    (l.set i a).getD i d = a := by
  rw [List.getD_eq_getElem?_getD, List.getElem?_set_self', List.getElem?_eq_getElem h]
  rfl

theorem set_getD_ne {A : Type} (l : List A) (i j : ℕ) (a d : A) (hne : i ≠ j) :
    (l.set i a).getD j d = l.getD j d := by
  rw [List.getD_eq_getElem?_getD, List.getElem?_set_ne hne, ← List.getD_eq_getElem?_getD]

/-- The y-flipped linear index is strictly below `width·height` for any
in-bounds coordinate. -/
theorem flip_index_lt (w h x y : ℕ) (hx : x < w) (hy : y < h) :
    (h - 1 - y) * w + x < w * h := by
  have h1 : h - 1 - y ≤ h - 1 := Nat.sub_le _ _
  calc (h - 1 - y) * w + x ≤ (h - 1) * w + x :=
        Nat.add_le_add_right (Nat.mul_le_mul_right _ h1) x
    _ < (h - 1) * w + w := Nat.add_lt_add_left hx _
    _ = ((h - 1) + 1) * w := (Nat.succ_mul _ _).symm
    _ = h * w := by rw [Nat.sub_add_cancel (by omega : 1 ≤ h)]
    _ = w * h := Nat.mul_comm _ _

/-- Claim C9: for an in-bounds coordinate and a storage of the invariant
length `width·height`, `plot_pixel` then `get_pixel` returns the stored
value, and the write lands at linear index `(height−1−y)·width + x` of
the raw storage. -/
theorem framebuffer_roundtrip {T : Type} [Inhabited T] (fb : Framebuffer T)
    (x y : ℕ) (v : T) (hx : x < fb.width) (hy : y < fb.height)
    (hlen : fb.buf.length = fb.width * fb.height) :
    (fb.plot_pixel x y v).get_pixel x y = v ∧
    (fb.plot_pixel x y v).buf.get? ((fb.height - 1 - y) * fb.width + x) = some v := by
  have hidx : (fb.height - 1 - y) * fb.width + x < fb.buf.length := by
    rw [hlen]
    exact flip_index_lt _ _ _ _ hx hy
  constructor
  · unfold Framebuffer.get_pixel Framebuffer.plot_pixel
    exact set_getD_self _ _ _ _ hidx
  · unfold Framebuffer.plot_pixel
    have hidx2 : (fb.height - 1 - y) * fb.width + x <
        (fb.buf.set ((fb.height - 1 - y) * fb.width + x) v).length := by
      simpa using hidx
    rw [List.get?_eq_getElem?, List.getElem?_eq_getElem hidx2, List.getElem_set_self]

/-- Witness for claim C9 on a concrete 2×2 byte framebuffer. -/
theorem framebuffer_roundtrip_witness :
    (0 < 2 ∧ 1 < 2 ∧ [0, 0, 0, 0].length = 2 * 2) ∧
    ((Framebuffer.mk 2 2 ([0, 0, 0, 0] : List ℕ)).plot_pixel 0 1 9).get_pixel 0 1 = 9 ∧
    ((Framebuffer.mk 2 2 ([0, 0, 0, 0] : List ℕ)).plot_pixel 0 1 9).buf.get?
      ((2 - 1 - 1) * 2 + 0) = some 9 :=
  ⟨⟨by norm_num, by norm_num, by norm_num⟩,
    framebuffer_roundtrip (Framebuffer.mk 2 2 [0, 0, 0, 0]) 0 1 9
      (by norm_num) (by norm_num) (by norm_num)⟩

/-! Section: NaN-aware f32 scalars for the rasterizer -/

/-- An f32 value that may be NaN: `none` plays NaN, `some q` a finite
value (exact-rational idealisation of the finite floats). -/
abbrev F := Option ℚ

/-- Addition with NaN propagation. -/
def addF : F → F → F
  | some a, some b => some (a + b)
  | _, _ => none

/-- Multiplication with NaN propagation (in the rasterizer a `none`
only ever arises from `0/0`, so the IEEE cases `0·∞` never occur). -/
def mulF : F → F → F
  | some a, some b => some (a * b)
  | _, _ => none

/-- Division: division by zero gives `none`.  IEEE distinguishes
`x/0 = ±∞` (x ≠ 0) from `0/0 = NaN`, but in `plot_triangle` the divisor
is the triangle area and a zero area forces every covered pixel's three
edge functions to zero (they sum to the area), so only the `0/0` case
is ever taken with a zero divisor. -/
def divF : F → F → F
  | some a, some b => if b = 0 then none else some (a / b)
  | _, _ => none

/-- IEEE `<` against a finite right operand: false when the left side
is NaN. -/
def ltF (a : F) (b : ℚ) : Bool :=
  match a with
  | some q => decide (q < b)
  | none => false

/-- The `f32` `Barycentric::interpolated` instance (src/shader.rs:14-16)
with NaN-aware coordinates: `self·λ.x + second·λ.y + third·λ.z`. -/
def interpolatedF (a : ℚ) (coords : F × F × F) (b c : ℚ) : F :=
  addF (addF (mulF (some a) coords.1) (mulF (some b) coords.2.1)) (mulF (some c) coords.2.2)

/-! Section: The triangle rasterizer -/

/-- Rust `Vec2::perp_dot`: `a.x·b.y − a.y·b.x`. -/
def perp_dot (a b : Vec2) : ℚ :=
  a.1 * b.2 - a.2 * b.1

/-- Rust `tri_area_signed_squared` (src/renderer.rs:362-364):
`(p1 − p0) ⊥· (p2 − p0)`. -/
def tri_area_signed_squared (p0 p1 p2 : Vec2) : ℚ :=
  perp_dot (p1.1 - p0.1, p1.2 - p0.2) (p2.1 - p0.1, p2.2 - p0.2)

/-- Rust `f32 as i32`: truncation toward zero. -/
def truncQ (q : ℚ) : ℤ :=
  if q < 0 then -⌊-q⌋ else ⌊q⌋

/-- glam `Vec2::as_ivec2`: componentwise truncation. -/
def truncV (p : Vec2) : ℤ × ℤ :=
  (truncQ p.1, truncQ p.2)

/-- Rust `BoundingBox2D` (src/renderer.rs:10-14). -/
structure BoundingBox2D where
  origin : ℤ × ℤ
  width : ℤ
  height : ℤ
  deriving DecidableEq, Repr

/-- Rust `tri_bounding_box` (src/renderer.rs:346-358). -/
def tri_bounding_box (p0 p1 p2 : ℤ × ℤ) : BoundingBox2D :=
  ⟨(min p0.1 (min p1.1 p2.1), min p0.2 (min p1.2 p2.2)),
   max p0.1 (max p1.1 p2.1) - min p0.1 (min p1.1 p2.1),
   max p0.2 (max p1.2 p2.2) - min p0.2 (min p1.2 p2.2)⟩

/-- Pack the fragment output as the color-buffer value
(src/renderer.rs:431): `b ||| (g <<< 8) ||| (r <<< 16)` for
`UVec3 (r, g, b)`. -/
def packColor (rgb : ℕ × ℕ × ℕ) : ℕ :=
  Nat.lor (Nat.lor rgb.2.2 (Nat.shiftLeft rgb.2.1 8)) (Nat.shiftLeft rgb.1 16)

/-- The renderer state the plot routines touch: color buffer, depth
buffer, plus a ghost log of every varying record handed to the fragment
stage (observability only — nothing reads it). -/
structure RastState (VI : Type) where
  cb : Framebuffer ℕ
  db : Framebuffer ℚ
  frags : List VI

/-- The per-triangle inputs of `plot_triangle` (src/renderer.rs:366-374):
three screen-space points, three clip-space z values, three varyings. -/
structure TriIn (VI : Type) where
  p0 : Vec2
  p1 : Vec2
  p2 : Vec2
  clipZ0 : ℚ
  clipZ1 : ℚ
  clipZ2 : ℚ
  in0 : VI
  in1 : VI
  in2 : VI

/-- The body of the inner pixel loop (src/renderer.rs:411-439): if all
three edge functions are ≥ 0 the pixel is covered; normalise the
barycentrics by the area (NaN on a zero area), interpolate depth, run
the fragment stage, and write depth and color only if the z-test
`z_depth < db[x,y]` passes.  Coordinate casts `as u16` are modelled by
`Int.toNat`; the claims below only use them in bounds, where the two
agree. -/
def pixelStep {VI : Type} (interp3 : (F × F × F) → VI → VI → VI → VI)
    (frag : VI → ℕ × ℕ × ℕ) (t : TriIn VI) (area : ℚ)
    (x y : ℤ) (efa efb efc : ℚ) (st : RastState VI) : RastState VI :=
  if 0 ≤ efa ∧ 0 ≤ efb ∧ 0 ≤ efc then
    let coords : F × F × F :=
      (divF (some efb) (some area), divF (some efc) (some area), divF (some efa) (some area))
    let z_depth := interpolatedF t.clipZ0 coords t.clipZ1 t.clipZ2
    let interpolated := interp3 coords t.in0 t.in1 t.in2
    let fb_color := packColor (frag interpolated)
    let st1 : RastState VI := ⟨st.cb, st.db, st.frags ++ [interpolated]⟩
    if ltF z_depth (st.db.get_pixel x.toNat y.toNat) then
      ⟨st1.cb.plot_pixel x.toNat y.toNat fb_color,
       st1.db.plot_pixel x.toNat y.toNat (z_depth.getD 0), st1.frags⟩
    else st1
  else st

/-- One scanline of `plot_triangle` (src/renderer.rs:401-443): `cols`
iterations from column `x`, incrementing each edge function by its `dy`
after each pixel. -/
def rowLoop {VI : Type} (interp3 : (F × F × F) → VI → VI → VI → VI)
    (frag : VI → ℕ × ℕ × ℕ) (t : TriIn VI) (area dya dyb dyc : ℚ) (y : ℤ) :
    ℕ → ℤ → ℚ → ℚ → ℚ → RastState VI → RastState VI
  | 0, _, _, _, _, st => st
  | n + 1, x, efa, efb, efc, st =>
    rowLoop interp3 frag t area dya dyb dyc y n (x + 1) (efa + dya) (efb + dyb) (efc + dyc)
      (pixelStep interp3 frag t area x y efa efb efc st)

/-- The scanline loop of `plot_triangle` (src/renderer.rs:395-450):
each row runs `rowLoop` on the edge-function values saved at the row
start (the inner increments are discarded), then subtracts the `dx`s —
exactly the save/restore of the source. -/
def rowsLoop {VI : Type} (interp3 : (F × F × F) → VI → VI → VI → VI)
    (frag : VI → ℕ × ℕ × ℕ) (t : TriIn VI) (area dya dyb dyc dxa dxb dxc : ℚ)
    (cols : ℕ) (x0 : ℤ) :
    ℕ → ℤ → ℚ → ℚ → ℚ → RastState VI → RastState VI
  | 0, _, _, _, _, st => st
  | m + 1, y, efa, efb, efc, st =>
    rowsLoop interp3 frag t area dya dyb dyc dxa dxb dxc cols x0 m (y + 1)
      (efa - dxa) (efb - dxb) (efc - dxc)
      (rowLoop interp3 frag t area dya dyb dyc y cols x0 efa efb efc st)

/-- Rust `plot_triangle` (src/renderer.rs:366-451). -/
def plot_triangle {VI : Type} (interp3 : (F × F × F) → VI → VI → VI → VI)
    (frag : VI → ℕ × ℕ × ℕ) (t : TriIn VI) (st : RastState VI) : RastState VI :=
  let area := tri_area_signed_squared t.p0 t.p1 t.p2
  let bb := tri_bounding_box (truncV t.p0) (truncV t.p1) (truncV t.p2)
  let start : Vec2 := ((bb.origin.1 : ℚ), (bb.origin.2 : ℚ))
  let dya := t.p0.2 - t.p1.2
  let dyb := t.p1.2 - t.p2.2
  let dyc := t.p2.2 - t.p0.2
  let dxa := t.p0.1 - t.p1.1
  let dxb := t.p1.1 - t.p2.1
  let dxc := t.p2.1 - t.p0.1
  rowsLoop interp3 frag t area dya dyb dyc dxa dxb dxc
    (bb.width.toNat + 1) bb.origin.1 (bb.height.toNat + 1) bb.origin.2
    (tri_area_signed_squared t.p0 t.p1 start)
    (tri_area_signed_squared t.p1 t.p2 start)
    (tri_area_signed_squared t.p2 t.p0 start) st

/-! Section: Degenerate triangles (area = 0) -/

theorem pixelStep_area_zero {VI : Type} (interp3 : (F × F × F) → VI → VI → VI → VI)
    (frag : VI → ℕ × ℕ × ℕ) (t : TriIn VI) (x y : ℤ) (efa efb efc : ℚ)
    (st : RastState VI) :
    (pixelStep interp3 frag t 0 x y efa efb efc st).cb = st.cb ∧
    (pixelStep interp3 frag t 0 x y efa efb efc st).db = st.db := by
  unfold pixelStep
  split
  · simp only [divF, if_pos rfl, interpolatedF, mulF, addF, ltF]
    exact ⟨rfl, rfl⟩
  · exact ⟨rfl, rfl⟩

theorem rowLoop_area_zero {VI : Type} (interp3 : (F × F × F) → VI → VI → VI → VI)
    (frag : VI → ℕ × ℕ × ℕ) (t : TriIn VI) (dya dyb dyc : ℚ) (y : ℤ) (n : ℕ) :
    ∀ (x : ℤ) (efa efb efc : ℚ) (st : RastState VI),
      (rowLoop interp3 frag t 0 dya dyb dyc y n x efa efb efc st).cb = st.cb ∧
      (rowLoop interp3 frag t 0 dya dyb dyc y n x efa efb efc st).db = st.db := by
  induction n with
  | zero => intro x efa efb efc st; exact ⟨rfl, rfl⟩
  | succ n ih =>
    intro x efa efb efc st
    obtain ⟨hcb, hdb⟩ := ih (x+1) (efa+dya) (efb+dyb) (efc+dyc)
      (pixelStep interp3 frag t 0 x y efa efb efc st)
    obtain ⟨hcb2, hdb2⟩ := pixelStep_area_zero interp3 frag t x y efa efb efc st
    exact ⟨by rw [rowLoop, hcb, hcb2], by rw [rowLoop, hdb, hdb2]⟩

theorem rowsLoop_area_zero {VI : Type} (interp3 : (F × F × F) → VI → VI → VI → VI)
    (frag : VI → ℕ × ℕ × ℕ) (t : TriIn VI) (dya dyb dyc dxa dxb dxc : ℚ)
    (cols : ℕ) (x0 : ℤ) (m : ℕ) :
    ∀ (y : ℤ) (efa efb efc : ℚ) (st : RastState VI),
      (rowsLoop interp3 frag t 0 dya dyb dyc dxa dxb dxc cols x0 m y efa efb efc st).cb = st.cb ∧
      (rowsLoop interp3 frag t 0 dya dyb dyc dxa dxb dxc cols x0 m y efa efb efc st).db = st.db := by
  induction m with
  | zero => intro y efa efb efc st; exact ⟨rfl, rfl⟩
  | succ m ih =>
    intro y efa efb efc st
    obtain ⟨hcb, hdb⟩ := ih (y+1) (efa-dxa) (efb-dxb) (efc-dxc)
      (rowLoop interp3 frag t 0 dya dyb dyc y cols x0 efa efb efc st)
    obtain ⟨hcb2, hdb2⟩ := rowLoop_area_zero interp3 frag t dya dyb dyc y cols x0 efa efb efc st
    exact ⟨by rw [rowsLoop, hcb, hcb2], by rw [rowsLoop, hdb, hdb2]⟩

/-- Claim C5 (amended): a triangle with zero signed area writes nothing
to the color buffer or the depth buffer — every covered pixel has all
three edge functions zero, making the normalised barycentrics `0/0`
(NaN) and the depth NaN, which fails the `<` z-test — but, contrary to
the claim, the primitive is not skipped: the fragment stage still runs
for those pixels (see the counterexample). -/
theorem plot_triangle_degenerate_no_writes {VI : Type}
    (interp3 : (F × F × F) → VI → VI → VI → VI) (frag : VI → ℕ × ℕ × ℕ)
    (t : TriIn VI) (st : RastState VI)
    (h : tri_area_signed_squared t.p0 t.p1 t.p2 = 0) :
    (plot_triangle interp3 frag t st).cb = st.cb ∧
    (plot_triangle interp3 frag t st).db = st.db := by
  unfold plot_triangle
  rw [h]
  exact rowsLoop_area_zero interp3 frag t _ _ _ _ _ _ _ _ _ _ _ _ _ st

/-- Claim C5 counterexample: the collinear triangle (0,0), (2,0), (1,0)
has signed area 0, and the source has no `area == 0` early-out: the
pixels (0,0), (1,0), (2,0) all pass the coverage test (their three edge
functions are exactly 0), so the fragment stage runs three times
(though the NaN depth keeps both buffers untouched). -/
theorem plot_triangle_degenerate_runs_fragments :
    tri_area_signed_squared (0, 0) (2, 0) (1, 0) = 0 ∧
    (plot_triangle (fun _ _ _ _ => ()) (fun _ => (255, 255, 255))
        (TriIn.mk (0, 0) (2, 0) (1, 0) 0 0 0 () () ())
        (RastState.mk (Framebuffer.mk 4 1 [0, 0, 0, 0])
          (Framebuffer.mk 4 1 [1, 1, 1, 1]) [])).frags.length = 3 := by
  constructor
  · norm_num [tri_area_signed_squared, perp_dot]
  · norm_num [plot_triangle, rowsLoop, rowLoop, pixelStep, tri_area_signed_squared,
      perp_dot, tri_bounding_box, truncV, truncQ, divF, mulF, addF, ltF, interpolatedF,
      packColor, Framebuffer.get_pixel, Framebuffer.plot_pixel]

/-- Witness for the amended claim C5 at a different concrete collinear
triangle and framebuffer size. -/
theorem plot_triangle_degenerate_no_writes_witness :
    tri_area_signed_squared (0, 0) (3, 0) (1, 0) = 0 ∧
    ((plot_triangle (fun _ _ _ _ => ()) (fun _ => (0, 255, 0))
        (TriIn.mk (0, 0) (3, 0) (1, 0) 0 0 0 () () ())
        (RastState.mk (Framebuffer.mk 2 2 [0, 0, 0, 0])
          (Framebuffer.mk 2 2 [1, 1, 1, 1]) [])).cb =
      Framebuffer.mk 2 2 [0, 0, 0, 0] ∧
     (plot_triangle (fun _ _ _ _ => ()) (fun _ => (0, 255, 0))
        (TriIn.mk (0, 0) (3, 0) (1, 0) 0 0 0 () () ())
        (RastState.mk (Framebuffer.mk 2 2 [0, 0, 0, 0])
          (Framebuffer.mk 2 2 [1, 1, 1, 1]) [])).db =
      Framebuffer.mk 2 2 [1, 1, 1, 1]) :=
  ⟨by norm_num [tri_area_signed_squared, perp_dot],
    plot_triangle_degenerate_no_writes _ _ _ _
      (by norm_num [tri_area_signed_squared, perp_dot])⟩

/-! Section: The line rasterizer -/

/-- The pixel loop of `plot_line` (src/renderer.rs:499-527): iterate
`n` steps of the driving axis from column `x`; each step interpolates
the varyings at the current integer pixel, runs the fragment stage,
writes the color buffer (swapping coordinates back when the driving
axis was y), then advances the Bresenham error term.  The depth buffer
is never touched. -/
def lineLoop {VI : Type} (yl : Bool) (edgeInterp : Vec2 → Vec2 → Vec2 → VI → VI → VI)
    (frag : VI → ℕ × ℕ × ℕ) (o1 o2 : Vec2) (a1 a2 : VI) (dx dy_abs sign : ℚ) :
    ℕ → ℤ → ℚ → ℚ → RastState VI → RastState VI
  | 0, _, _, _, st => st
  | n + 1, x, y, eps, st =>
    let interpolated := edgeInterp o1 o2 ((x : ℚ), ((truncQ y : ℤ) : ℚ)) a1 a2
    let fb_color := packColor (frag interpolated)
    let st1 : RastState VI :=
      if yl then
        ⟨st.cb.plot_pixel (truncQ y).toNat x.toNat fb_color, st.db, st.frags ++ [interpolated]⟩
      else
        ⟨st.cb.plot_pixel x.toNat (truncQ y).toNat fb_color, st.db, st.frags ++ [interpolated]⟩
    lineLoop yl edgeInterp frag o1 o2 a1 a2 dx dy_abs sign n (x + 1)
      (if eps ≥ 0 then y + sign else y)
      ((if eps ≥ 0 then eps - dx else eps) + dy_abs) st1

/-- Rust `plot_line` (src/renderer.rs:453-528): skip equal endpoints, swap
to the driving axis when the line is y-long, save the (pre-order-swap)
endpoints for interpolation, order the endpoints along the driving
axis, then run the Bresenham loop `for x in p1.x as i32 .. p2.x as i32`. -/
def plot_line {VI : Type} (edgeInterp : Vec2 → Vec2 → Vec2 → VI → VI → VI)
    (frag : VI → ℕ × ℕ × ℕ) (p1 p2 : Vec2) (p1_input p2_input : VI)
    (st : RastState VI) : RastState VI :=
  if p1 = p2 then st
  else
    let yl : Bool := decide (|p1.2 - p2.2| > |p1.1 - p2.1|)
    let q1 := if yl then (p1.2, p1.1) else p1
    let q2 := if yl then (p2.2, p2.1) else p2
    let r1 := if q1.1 > q2.1 then q2 else q1
    let r2 := if q1.1 > q2.1 then q1 else q2
    let dx := r2.1 - r1.1
    let dy := r2.2 - r1.2
    lineLoop yl edgeInterp frag q1 q2 p1_input p2_input dx |dy|
      (if dy ≥ 0 then 1 else -1)
      (truncQ r2.1 - truncQ r1.1).toNat (truncQ r1.1) r1.2 (|dy| - |dx|) st

theorem lineLoop_preserves_db {VI : Type} (yl : Bool)
    (edgeInterp : Vec2 → Vec2 → Vec2 → VI → VI → VI) (frag : VI → ℕ × ℕ × ℕ)
    (o1 o2 : Vec2) (a1 a2 : VI) (dx dy_abs sign : ℚ) (n : ℕ) :
    ∀ (x : ℤ) (y eps : ℚ) (st : RastState VI),
      (lineLoop yl edgeInterp frag o1 o2 a1 a2 dx dy_abs sign n x y eps st).db = st.db := by
  induction n with
  | zero => intro x y eps st; rfl
  | succ n ih =>
    intro x y eps st
    rw [lineLoop]
    rw [ih]
    cases yl <;> rfl

/-- Claim C10: the wireframe line rasterizer never modifies the depth
buffer — for all endpoints, varyings and starting state, the depth
buffer after `plot_line` equals the depth buffer before; only the color
buffer (and fragment log) can change. -/
theorem plot_line_preserves_depth {VI : Type}
    (edgeInterp : Vec2 → Vec2 → Vec2 → VI → VI → VI) (frag : VI → ℕ × ℕ × ℕ)
    (p1 p2 : Vec2) (p1_input p2_input : VI) (st : RastState VI) :
    (plot_line edgeInterp frag p1 p2 p1_input p2_input st).db = st.db := by
  unfold plot_line
  split
  · rfl
  · exact lineLoop_preserves_db _ _ _ _ _ _ _ _ _ _ _ _ _ _ st

/-! Section: Pointwise characterisation of the triangle rasterizer -/

/-- Direct (non-incremental) edge function of edge `p0 → p1` at the
integer pixel `(x, y)` — the value the incremental accumulators carry
(proved below). -/
def efA {VI : Type} (t : TriIn VI) (x y : ℤ) : ℚ :=
  tri_area_signed_squared t.p0 t.p1 ((x : ℚ), (y : ℚ))

/-- Direct edge function of edge `p1 → p2` at pixel `(x, y)`. -/
def efB {VI : Type} (t : TriIn VI) (x y : ℤ) : ℚ :=
  tri_area_signed_squared t.p1 t.p2 ((x : ℚ), (y : ℚ))

/-- Direct edge function of edge `p2 → p0` at pixel `(x, y)`. -/
def efC {VI : Type} (t : TriIn VI) (x y : ℤ) : ℚ :=
  tri_area_signed_squared t.p2 t.p0 ((x : ℚ), (y : ℚ))

/-- The coverage test of the source at pixel `(x, y)`:
`efa ≥ 0 ∧ efb ≥ 0 ∧ efc ≥ 0`. -/
def CoveredAt {VI : Type} (t : TriIn VI) (x y : ℤ) : Prop :=
  0 ≤ efA t x y ∧ 0 ≤ efB t x y ∧ 0 ≤ efC t x y

/-- The normalised barycentric coordinates `(efb, efc, efa) / area` at
pixel `(x, y)`. -/
def coordsAt {VI : Type} (t : TriIn VI) (area : ℚ) (x y : ℤ) : F × F × F :=
  (divF (some (efB t x y)) (some area), divF (some (efC t x y)) (some area),
   divF (some (efA t x y)) (some area))

/-- The interpolated depth at pixel `(x, y)`. -/
def zDepthAt {VI : Type} (t : TriIn VI) (area : ℚ) (x y : ℤ) : F :=
  interpolatedF t.clipZ0 (coordsAt t area x y) t.clipZ1 t.clipZ2

/-- The packed fragment color at pixel `(x, y)`. -/
def fragColorAt {VI : Type} (interp3 : (F × F × F) → VI → VI → VI → VI)
    (frag : VI → ℕ × ℕ × ℕ) (t : TriIn VI) (area : ℚ) (x y : ℤ) : ℕ :=
  packColor (frag (interp3 (coordsAt t area x y) t.in0 t.in1 t.in2))

/-- Dimension/length invariant of a render state. -/
def DimsOk {VI : Type} (st : RastState VI) (w h : ℕ) : Prop :=
  st.cb.width = w ∧ st.cb.height = h ∧ st.cb.buf.length = w * h ∧
  st.db.width = w ∧ st.db.height = h ∧ st.db.buf.length = w * h

theorem plot_pixel_dims {T : Type} (fb : Framebuffer T) (x y : ℕ) (v : T) :
    (fb.plot_pixel x y v).width = fb.width ∧ (fb.plot_pixel x y v).height = fb.height ∧
    (fb.plot_pixel x y v).buf.length = fb.buf.length := by
  unfold Framebuffer.plot_pixel
  exact ⟨rfl, rfl, List.length_set _ _ _⟩

/-- Writing one pixel then reading it back (in bounds) gives the
written value. -/
theorem get_plot_self {T : Type} [Inhabited T] (fb : Framebuffer T) (x y : ℕ) (v : T)
    (hx : x < fb.width) (hy : y < fb.height)
    (hlen : fb.buf.length = fb.width * fb.height) :
    (fb.plot_pixel x y v).get_pixel x y = v := by
  unfold Framebuffer.get_pixel Framebuffer.plot_pixel
  refine set_getD_self _ _ _ _ ?_
  rw [hlen]
  exact flip_index_lt _ _ _ _ hx hy

/-- The y-flipped linear index is injective on in-bounds coordinates. -/
theorem flip_index_inj (w h x y a b : ℕ) (hx : x < w) (hy : y < h)
    (ha : a < w) (hb : b < h)
    (heq : (h - 1 - y) * w + x = (h - 1 - b) * w + a) : x = a ∧ y = b := by
  have hw : 0 < w := by omega
  have hxa : x = a := by
    have e1 : ((h - 1 - y) * w + x) % w = x % w := by
      rw [Nat.mul_comm]
      exact Nat.mul_add_mod _ _ _
    have e2 : ((h - 1 - b) * w + a) % w = a % w := by
      rw [Nat.mul_comm]
      exact Nat.mul_add_mod _ _ _
    rw [heq, e2] at e1
    rw [Nat.mod_eq_of_lt ha, Nat.mod_eq_of_lt hx] at e1
    omega
  refine ⟨hxa, ?_⟩
  have hyb : (h - 1 - y) * w = (h - 1 - b) * w := by omega
  have := Nat.eq_of_mul_eq_mul_right hw hyb
  omega

/-- Writing one in-bounds pixel leaves every other in-bounds pixel
unchanged. -/
theorem get_plot_other {T : Type} [Inhabited T] (fb : Framebuffer T) (x y a b : ℕ) (v : T)
    (hx : x < fb.width) (hy : y < fb.height) (ha : a < fb.width) (hb : b < fb.height)
    (hne : ¬ (a = x ∧ b = y)) :
    (fb.plot_pixel x y v).get_pixel a b = fb.get_pixel a b := by
  unfold Framebuffer.get_pixel Framebuffer.plot_pixel
  refine set_getD_ne _ _ _ _ _ ?_
  intro heq
  obtain ⟨h1, h2⟩ := flip_index_inj fb.width fb.height x y a b hx hy ha hb heq
  exact hne ⟨h1.symm, h2.symm⟩

instance coveredAtDecidable {VI : Type} (t : TriIn VI) (x y : ℤ) :
    Decidable (CoveredAt t x y) := by
  unfold CoveredAt
  infer_instance

/-- What the depth buffer holds at a pixel after its own loop
iteration, as a function of the value `d` it held before: the z-test
outcome of the source's pixel body. -/
def pixelOutDb {VI : Type} (t : TriIn VI) (area : ℚ) (x y : ℤ) (d : ℚ) : ℚ :=
  if CoveredAt t x y then
    (if ltF (zDepthAt t area x y) d then (zDepthAt t area x y).getD 0 else d)
  else d

/-- What the color buffer holds at a pixel after its own loop
iteration, as a function of the old depth `d` and old color `old`. -/
def pixelOutCb {VI : Type} (interp3 : (F × F × F) → VI → VI → VI → VI)
    (frag : VI → ℕ × ℕ × ℕ) (t : TriIn VI) (area : ℚ) (x y : ℤ)
    (d : ℚ) (old : ℕ) : ℕ :=
  if CoveredAt t x y then
    (if ltF (zDepthAt t area x y) d then fragColorAt interp3 frag t area x y else old)
  else old

theorem pixelStep_DimsOk {VI : Type} (interp3 : (F × F × F) → VI → VI → VI → VI)
    (frag : VI → ℕ × ℕ × ℕ) (t : TriIn VI) (area : ℚ) (x y : ℤ) (efa efb efc : ℚ)
    {st : RastState VI} {w h : ℕ} (hd : DimsOk st w h) :
    DimsOk (pixelStep interp3 frag t area x y efa efb efc st) w h := by
  obtain ⟨h1, h2, h3, h4, h5, h6⟩ := hd
  unfold pixelStep
  dsimp only
  split
  · split
    · exact ⟨h1, h2, by simpa [Framebuffer.plot_pixel, List.length_set] using h3,
        h4, h5, by simpa [Framebuffer.plot_pixel, List.length_set] using h6⟩
    · exact ⟨h1, h2, h3, h4, h5, h6⟩
  · exact ⟨h1, h2, h3, h4, h5, h6⟩

theorem pixelStep_hit {VI : Type} (interp3 : (F × F × F) → VI → VI → VI → VI)
    (frag : VI → ℕ × ℕ × ℕ) (t : TriIn VI) (area : ℚ) (x y : ℤ)
    {st : RastState VI} {w h : ℕ} (hd : DimsOk st w h)
    (hx : x.toNat < w) (hy : y.toNat < h) :
    (pixelStep interp3 frag t area x y (efA t x y) (efB t x y) (efC t x y) st).db.get_pixel
        x.toNat y.toNat
      = pixelOutDb t area x y (st.db.get_pixel x.toNat y.toNat) ∧
    (pixelStep interp3 frag t area x y (efA t x y) (efB t x y) (efC t x y) st).cb.get_pixel
        x.toNat y.toNat
      = pixelOutCb interp3 frag t area x y (st.db.get_pixel x.toNat y.toNat)
          (st.cb.get_pixel x.toNat y.toNat) := by
  obtain ⟨h1, h2, h3, h4, h5, h6⟩ := hd
  unfold pixelStep pixelOutDb pixelOutCb CoveredAt zDepthAt fragColorAt coordsAt
  dsimp only
  split
  · split
    · constructor
      · exact get_plot_self st.db x.toNat y.toNat _ (by omega) (by omega)
          (by rw [h4, h5]; exact h6)
      · exact get_plot_self st.cb x.toNat y.toNat _ (by omega) (by omega)
          (by rw [h1, h2]; exact h3)
    · exact ⟨rfl, rfl⟩
  · exact ⟨rfl, rfl⟩

theorem pixelStep_other {VI : Type} (interp3 : (F × F × F) → VI → VI → VI → VI)
    (frag : VI → ℕ × ℕ × ℕ) (t : TriIn VI) (area : ℚ) (x y : ℤ) (efa efb efc : ℚ)
    {st : RastState VI} {w h : ℕ} (hd : DimsOk st w h)
    (hx : x.toNat < w) (hy : y.toNat < h) (a b : ℕ) (ha : a < w) (hb : b < h)
    (hne : ¬ (a = x.toNat ∧ b = y.toNat)) :
    (pixelStep interp3 frag t area x y efa efb efc st).db.get_pixel a b
        = st.db.get_pixel a b ∧
    (pixelStep interp3 frag t area x y efa efb efc st).cb.get_pixel a b
        = st.cb.get_pixel a b := by
  obtain ⟨h1, h2, h3, h4, h5, h6⟩ := hd
  unfold pixelStep
  dsimp only
  split
  · split
    · constructor
      · exact get_plot_other st.db x.toNat y.toNat a b _ (by omega) (by omega)
          (by omega) (by omega) hne
      · exact get_plot_other st.cb x.toNat y.toNat a b _ (by omega) (by omega)
          (by omega) (by omega) hne
    · exact ⟨rfl, rfl⟩
  · exact ⟨rfl, rfl⟩

theorem efA_step_x {VI : Type} (t : TriIn VI) (x y : ℤ) :
    efA t (x + 1) y = efA t x y + (t.p0.2 - t.p1.2) := by
  unfold efA tri_area_signed_squared perp_dot
  push_cast
  ring

theorem efB_step_x {VI : Type} (t : TriIn VI) (x y : ℤ) :
    efB t (x + 1) y = efB t x y + (t.p1.2 - t.p2.2) := by
  unfold efB tri_area_signed_squared perp_dot
  push_cast
  ring

theorem efC_step_x {VI : Type} (t : TriIn VI) (x y : ℤ) :
    efC t (x + 1) y = efC t x y + (t.p2.2 - t.p0.2) := by
  unfold efC tri_area_signed_squared perp_dot
  push_cast
  ring

theorem efA_step_y {VI : Type} (t : TriIn VI) (x y : ℤ) :
    efA t x (y + 1) = efA t x y - (t.p0.1 - t.p1.1) := by
  unfold efA tri_area_signed_squared perp_dot
  push_cast
  ring

theorem efB_step_y {VI : Type} (t : TriIn VI) (x y : ℤ) :
    efB t x (y + 1) = efB t x y - (t.p1.1 - t.p2.1) := by
  unfold efB tri_area_signed_squared perp_dot
  push_cast
  ring

theorem efC_step_y {VI : Type} (t : TriIn VI) (x y : ℤ) :
    efC t x (y + 1) = efC t x y - (t.p2.1 - t.p0.1) := by
  unfold efC tri_area_signed_squared perp_dot
  push_cast
  ring

theorem rowLoop_DimsOk {VI : Type} (interp3 : (F × F × F) → VI → VI → VI → VI)
    (frag : VI → ℕ × ℕ × ℕ) (t : TriIn VI) (area dya dyb dyc : ℚ) (y : ℤ) (n : ℕ) :
    ∀ (x : ℤ) (efa efb efc : ℚ) {st : RastState VI} {w h : ℕ}, DimsOk st w h →
      DimsOk (rowLoop interp3 frag t area dya dyb dyc y n x efa efb efc st) w h := by
  induction n with
  | zero => intro x efa efb efc st w h hd; exact hd
  | succ n ih =>
    intro x efa efb efc st w h hd
    rw [rowLoop]
    exact ih _ _ _ _ (pixelStep_DimsOk _ _ _ _ _ _ _ _ _ hd)

theorem rowLoop_other {VI : Type} (interp3 : (F × F × F) → VI → VI → VI → VI)
    (frag : VI → ℕ × ℕ × ℕ) (t : TriIn VI) (area dya dyb dyc : ℚ) (y : ℤ) (n : ℕ) :
    ∀ (x : ℤ) (efa efb efc : ℚ) {st : RastState VI} {w h : ℕ}, DimsOk st w h →
      0 ≤ x → x + n ≤ (w : ℤ) → 0 ≤ y → y < (h : ℤ) →
      ∀ (a b : ℕ), a < w → b < h →
        (b ≠ y.toNat ∨ (a : ℤ) < x ∨ x + n ≤ (a : ℤ)) →
        (rowLoop interp3 frag t area dya dyb dyc y n x efa efb efc st).db.get_pixel a b
            = st.db.get_pixel a b ∧
        (rowLoop interp3 frag t area dya dyb dyc y n x efa efb efc st).cb.get_pixel a b
            = st.cb.get_pixel a b := by
  induction n with
  | zero => intro x efa efb efc st w h hd hx0 hxn hy0 hyh a b ha hb hcond; exact ⟨rfl, rfl⟩
  | succ n ih =>
    intro x efa efb efc st w h hd hx0 hxn hy0 hyh a b ha hb hcond
    rw [rowLoop]
    have hne : ¬ (a = x.toNat ∧ b = y.toNat) := by
      rintro ⟨rfl, rfl⟩
      rcases hcond with hc | hc | hc <;> omega
    obtain ⟨hdb, hcb⟩ := pixelStep_other interp3 frag t area x y efa efb efc hd
      (by omega) (by omega) a b ha hb hne
    obtain ⟨hdb2, hcb2⟩ := ih (x + 1) (efa + dya) (efb + dyb) (efc + dyc)
      (pixelStep_DimsOk _ _ _ _ _ _ _ _ _ hd) (by omega) (by omega) hy0 hyh a b ha hb
      (by rcases hcond with hc | hc | hc
          · exact Or.inl hc
          · exact Or.inr (Or.inl (by omega))
          · exact Or.inr (Or.inr (by omega)))
    exact ⟨hdb2.trans hdb, hcb2.trans hcb⟩

theorem rowLoop_hit {VI : Type} (interp3 : (F × F × F) → VI → VI → VI → VI)
    (frag : VI → ℕ × ℕ × ℕ) (t : TriIn VI) (area : ℚ) (y : ℤ) (xt : ℤ) (n : ℕ) :
    ∀ (x : ℤ) {st : RastState VI} {w h : ℕ}, DimsOk st w h →
      0 ≤ x → x + n ≤ (w : ℤ) → 0 ≤ y → y < (h : ℤ) →
      x ≤ xt → xt < x + n →
      (rowLoop interp3 frag t area (t.p0.2 - t.p1.2) (t.p1.2 - t.p2.2) (t.p2.2 - t.p0.2)
          y n x (efA t x y) (efB t x y) (efC t x y) st).db.get_pixel xt.toNat y.toNat
        = pixelOutDb t area xt y (st.db.get_pixel xt.toNat y.toNat) ∧
      (rowLoop interp3 frag t area (t.p0.2 - t.p1.2) (t.p1.2 - t.p2.2) (t.p2.2 - t.p0.2)
          y n x (efA t x y) (efB t x y) (efC t x y) st).cb.get_pixel xt.toNat y.toNat
        = pixelOutCb interp3 frag t area xt y (st.db.get_pixel xt.toNat y.toNat)
            (st.cb.get_pixel xt.toNat y.toNat) := by
  induction n with
  | zero => intro x st w h hd hx0 hxn hy0 hyh hxt1 hxt2; omega
  | succ n ih =>
    intro x st w h hd hx0 hxn hy0 hyh hxt1 hxt2
    rw [rowLoop]
    rcases eq_or_lt_of_le hxt1 with heq | hlt
    · -- the target pixel is handled by this very iteration
      rw [← heq]
      obtain ⟨hdb1, hcb1⟩ := pixelStep_hit interp3 frag t area x y hd (by omega) (by omega)
      obtain ⟨hdb2, hcb2⟩ := rowLoop_other interp3 frag t area
        (t.p0.2 - t.p1.2) (t.p1.2 - t.p2.2) (t.p2.2 - t.p0.2) y n (x + 1)
        (efA t x y + (t.p0.2 - t.p1.2)) (efB t x y + (t.p1.2 - t.p2.2))
        (efC t x y + (t.p2.2 - t.p0.2))
        (pixelStep_DimsOk _ _ _ _ _ _ _ _ _ hd) (by omega) (by omega) hy0 hyh
        x.toNat y.toNat (by omega) (by omega) (Or.inr (Or.inl (by omega)))
      exact ⟨hdb2.trans hdb1, hcb2.trans hcb1⟩
    · -- the target pixel sits strictly to the right: this iteration is elsewhere
      obtain ⟨hdb1, hcb1⟩ := pixelStep_other interp3 frag t area x y
        (efA t x y) (efB t x y) (efC t x y) hd (by omega) (by omega)
        xt.toNat y.toNat (by omega) (by omega) (by rintro ⟨h1, -⟩; omega)
      have hstep : efA t x y + (t.p0.2 - t.p1.2) = efA t (x + 1) y := (efA_step_x t x y).symm
      have hstepb : efB t x y + (t.p1.2 - t.p2.2) = efB t (x + 1) y := (efB_step_x t x y).symm
      have hstepc : efC t x y + (t.p2.2 - t.p0.2) = efC t (x + 1) y := (efC_step_x t x y).symm
      rw [hstep, hstepb, hstepc]
      obtain ⟨hdb2, hcb2⟩ := ih (x + 1)
        (pixelStep_DimsOk _ _ _ _ _ _ _ _ _ hd) (by omega) (by omega) hy0 hyh
        (by omega) (by omega)
      rw [hdb1] at hdb2
      rw [hdb1, hcb1] at hcb2
      exact ⟨hdb2, hcb2⟩

theorem rowsLoop_DimsOk {VI : Type} (interp3 : (F × F × F) → VI → VI → VI → VI)
    (frag : VI → ℕ × ℕ × ℕ) (t : TriIn VI) (area dya dyb dyc dxa dxb dxc : ℚ)
    (cols : ℕ) (x0 : ℤ) (m : ℕ) :
    ∀ (y : ℤ) (efa efb efc : ℚ) {st : RastState VI} {w h : ℕ}, DimsOk st w h →
      DimsOk (rowsLoop interp3 frag t area dya dyb dyc dxa dxb dxc cols x0 m y efa efb efc st)
        w h := by
  induction m with
  | zero => intro y efa efb efc st w h hd; exact hd
  | succ m ih =>
    intro y efa efb efc st w h hd
    rw [rowsLoop]
    exact ih _ _ _ _ (rowLoop_DimsOk _ _ _ _ _ _ _ _ _ _ _ _ _ hd)

theorem rowsLoop_other {VI : Type} (interp3 : (F × F × F) → VI → VI → VI → VI)
    (frag : VI → ℕ × ℕ × ℕ) (t : TriIn VI) (area dya dyb dyc dxa dxb dxc : ℚ)
    (cols : ℕ) (x0 : ℤ) (m : ℕ) :
    ∀ (y : ℤ) (efa efb efc : ℚ) {st : RastState VI} {w h : ℕ}, DimsOk st w h →
      0 ≤ x0 → x0 + cols ≤ (w : ℤ) → 0 ≤ y → y + m ≤ (h : ℤ) →
      ∀ (a b : ℕ), a < w → b < h → ((b : ℤ) < y ∨ y + m ≤ (b : ℤ)) →
        (rowsLoop interp3 frag t area dya dyb dyc dxa dxb dxc cols x0 m y efa efb efc
            st).db.get_pixel a b = st.db.get_pixel a b ∧
        (rowsLoop interp3 frag t area dya dyb dyc dxa dxb dxc cols x0 m y efa efb efc
            st).cb.get_pixel a b = st.cb.get_pixel a b := by
  induction m with
  | zero => intro y efa efb efc st w h hd hx0 hxc hy0 hym a b ha hb hcond; exact ⟨rfl, rfl⟩
  | succ m ih =>
    intro y efa efb efc st w h hd hx0 hxc hy0 hym a b ha hb hcond
    rw [rowsLoop]
    obtain ⟨hdb1, hcb1⟩ := rowLoop_other interp3 frag t area dya dyb dyc y cols x0 efa efb efc
      hd hx0 hxc hy0 (by omega) a b ha hb (Or.inl (by omega))
    obtain ⟨hdb2, hcb2⟩ := ih (y + 1) (efa - dxa) (efb - dxb) (efc - dxc)
      (rowLoop_DimsOk _ _ _ _ _ _ _ _ _ _ _ _ _ hd) hx0 hxc (by omega) (by omega)
      a b ha hb (by omega)
    exact ⟨hdb2.trans hdb1, hcb2.trans hcb1⟩

theorem rowsLoop_hit {VI : Type} (interp3 : (F × F × F) → VI → VI → VI → VI)
    (frag : VI → ℕ × ℕ × ℕ) (t : TriIn VI) (area : ℚ)
    (cols : ℕ) (x0 : ℤ) (xt yt : ℤ) (m : ℕ) :
    ∀ (y : ℤ) {st : RastState VI} {w h : ℕ}, DimsOk st w h →
      0 ≤ x0 → x0 + cols ≤ (w : ℤ) → 0 ≤ y → y + m ≤ (h : ℤ) →
      x0 ≤ xt → xt < x0 + cols → y ≤ yt → yt < y + m →
      (rowsLoop interp3 frag t area (t.p0.2 - t.p1.2) (t.p1.2 - t.p2.2) (t.p2.2 - t.p0.2)
          (t.p0.1 - t.p1.1) (t.p1.1 - t.p2.1) (t.p2.1 - t.p0.1) cols x0 m y
          (efA t x0 y) (efB t x0 y) (efC t x0 y) st).db.get_pixel xt.toNat yt.toNat
        = pixelOutDb t area xt yt (st.db.get_pixel xt.toNat yt.toNat) ∧
      (rowsLoop interp3 frag t area (t.p0.2 - t.p1.2) (t.p1.2 - t.p2.2) (t.p2.2 - t.p0.2)
          (t.p0.1 - t.p1.1) (t.p1.1 - t.p2.1) (t.p2.1 - t.p0.1) cols x0 m y
          (efA t x0 y) (efB t x0 y) (efC t x0 y) st).cb.get_pixel xt.toNat yt.toNat
        = pixelOutCb interp3 frag t area xt yt (st.db.get_pixel xt.toNat yt.toNat)
            (st.cb.get_pixel xt.toNat yt.toNat) := by
  induction m with
  | zero => intro y st w h hd hx0 hxc hy0 hym hxt1 hxt2 hyt1 hyt2; omega
  | succ m ih =>
    intro y st w h hd hx0 hxc hy0 hym hxt1 hxt2 hyt1 hyt2
    rw [rowsLoop]
    rcases eq_or_lt_of_le hyt1 with heq | hlt
    · -- the target row is this very row
      rw [← heq]
      have hx_row : efA t x0 y = efA t x0 y := rfl
      obtain ⟨hdb1, hcb1⟩ := rowLoop_hit interp3 frag t area y xt cols x0 hd
        hx0 hxc hy0 (by omega) hxt1 hxt2
      obtain ⟨hdb2, hcb2⟩ := rowsLoop_other interp3 frag t area
        (t.p0.2 - t.p1.2) (t.p1.2 - t.p2.2) (t.p2.2 - t.p0.2)
        (t.p0.1 - t.p1.1) (t.p1.1 - t.p2.1) (t.p2.1 - t.p0.1) cols x0 m (y + 1)
        (efA t x0 y - (t.p0.1 - t.p1.1)) (efB t x0 y - (t.p1.1 - t.p2.1))
        (efC t x0 y - (t.p2.1 - t.p0.1))
        (rowLoop_DimsOk _ _ _ _ _ _ _ _ _ _ _ _ _ hd) hx0 hxc (by omega) (by omega)
        xt.toNat y.toNat (by omega) (by omega) (Or.inl (by omega))
      exact ⟨hdb2.trans hdb1, hcb2.trans hcb1⟩
    · -- the target row is further up: this row is elsewhere
      obtain ⟨hdb1, hcb1⟩ := rowLoop_other interp3 frag t area
        (t.p0.2 - t.p1.2) (t.p1.2 - t.p2.2) (t.p2.2 - t.p0.2) y cols x0
        (efA t x0 y) (efB t x0 y) (efC t x0 y) hd hx0 hxc hy0 (by omega)
        xt.toNat yt.toNat (by omega) (by omega) (Or.inl (by omega))
      have hstep : efA t x0 y - (t.p0.1 - t.p1.1) = efA t x0 (y + 1) := (efA_step_y t x0 y).symm
      have hstepb : efB t x0 y - (t.p1.1 - t.p2.1) = efB t x0 (y + 1) := (efB_step_y t x0 y).symm
      have hstepc : efC t x0 y - (t.p2.1 - t.p0.1) = efC t x0 (y + 1) := (efC_step_y t x0 y).symm
      rw [hstep, hstepb, hstepc]
      obtain ⟨hdb2, hcb2⟩ := ih (y + 1)
        (rowLoop_DimsOk _ _ _ _ _ _ _ _ _ _ _ _ _ hd) hx0 hxc (by omega) (by omega)
        hxt1 hxt2 (by omega) (by omega)
      rw [hdb1] at hdb2
      rw [hdb1, hcb1] at hcb2
      exact ⟨hdb2, hcb2⟩

/-- The bounding box `plot_triangle` computes from its three truncated
points. -/
def bbOf {VI : Type} (t : TriIn VI) : BoundingBox2D :=
  tri_bounding_box (truncV t.p0) (truncV t.p1) (truncV t.p2)

theorem bbOf_nonneg {VI : Type} (t : TriIn VI) :
    0 ≤ (bbOf t).width ∧ 0 ≤ (bbOf t).height := by
  unfold bbOf tri_bounding_box
  dsimp only
  constructor
  · have h1 : min (truncV t.p0).1 (min (truncV t.p1).1 (truncV t.p2).1) ≤ (truncV t.p0).1 :=
      min_le_left _ _
    have h2 : (truncV t.p0).1 ≤ max (truncV t.p0).1 (max (truncV t.p1).1 (truncV t.p2).1) :=
      le_max_left _ _
    linarith
  · have h1 : min (truncV t.p0).2 (min (truncV t.p1).2 (truncV t.p2).2) ≤ (truncV t.p0).2 :=
      min_le_left _ _
    have h2 : (truncV t.p0).2 ≤ max (truncV t.p0).2 (max (truncV t.p1).2 (truncV t.p2).2) :=
      le_max_left _ _
    linarith

/-- Claim C7: for every covered pixel `(x, y)` (all three edge
functions ≥ 0) of a triangle whose bounding box lies inside the
framebuffer: if the interpolated depth is strictly below the stored
depth at `(x, y)` then the depth buffer receives that depth and the
color buffer the packed fragment output; otherwise neither buffer
changes at `(x, y)`. -/
theorem plot_triangle_z_test {VI : Type} (interp3 : (F × F × F) → VI → VI → VI → VI)
    (frag : VI → ℕ × ℕ × ℕ) (t : TriIn VI) (st : RastState VI) (w h : ℕ)
    (hd : DimsOk st w h)
    (hbx0 : 0 ≤ (bbOf t).origin.1)
    (hbx1 : (bbOf t).origin.1 + (bbOf t).width < (w : ℤ))
    (hby0 : 0 ≤ (bbOf t).origin.2)
    (hby1 : (bbOf t).origin.2 + (bbOf t).height < (h : ℤ))
    (x y : ℤ)
    (hx1 : (bbOf t).origin.1 ≤ x) (hx2 : x ≤ (bbOf t).origin.1 + (bbOf t).width)
    (hy1 : (bbOf t).origin.2 ≤ y) (hy2 : y ≤ (bbOf t).origin.2 + (bbOf t).height)
    (hcov : CoveredAt t x y) :
    (ltF (zDepthAt t (tri_area_signed_squared t.p0 t.p1 t.p2) x y)
        (st.db.get_pixel x.toNat y.toNat) = true →
      (plot_triangle interp3 frag t st).db.get_pixel x.toNat y.toNat
          = (zDepthAt t (tri_area_signed_squared t.p0 t.p1 t.p2) x y).getD 0 ∧
      (plot_triangle interp3 frag t st).cb.get_pixel x.toNat y.toNat
          = fragColorAt interp3 frag t (tri_area_signed_squared t.p0 t.p1 t.p2) x y) ∧
    (ltF (zDepthAt t (tri_area_signed_squared t.p0 t.p1 t.p2) x y)
        (st.db.get_pixel x.toNat y.toNat) = false →
      (plot_triangle interp3 frag t st).db.get_pixel x.toNat y.toNat
          = st.db.get_pixel x.toNat y.toNat ∧
      (plot_triangle interp3 frag t st).cb.get_pixel x.toNat y.toNat
          = st.cb.get_pixel x.toNat y.toNat) := by
  obtain ⟨hwn, hhn⟩ := bbOf_nonneg t
  have hpt : plot_triangle interp3 frag t st
      = rowsLoop interp3 frag t (tri_area_signed_squared t.p0 t.p1 t.p2)
          (t.p0.2 - t.p1.2) (t.p1.2 - t.p2.2) (t.p2.2 - t.p0.2)
          (t.p0.1 - t.p1.1) (t.p1.1 - t.p2.1) (t.p2.1 - t.p0.1)
          ((bbOf t).width.toNat + 1) (bbOf t).origin.1 ((bbOf t).height.toNat + 1)
          (bbOf t).origin.2
          (efA t (bbOf t).origin.1 (bbOf t).origin.2)
          (efB t (bbOf t).origin.1 (bbOf t).origin.2)
          (efC t (bbOf t).origin.1 (bbOf t).origin.2) st := rfl
  obtain ⟨kdb, kcb⟩ := rowsLoop_hit interp3 frag t (tri_area_signed_squared t.p0 t.p1 t.p2)
    ((bbOf t).width.toNat + 1) (bbOf t).origin.1 x y ((bbOf t).height.toNat + 1)
    (bbOf t).origin.2 hd hbx0 (by omega) hby0 (by omega)
    hx1 (by omega) hy1 (by omega)
  rw [hpt]
  constructor
  · intro hlt
    rw [kdb, kcb]
    unfold pixelOutDb pixelOutCb
    rw [if_pos hcov, if_pos hcov, if_pos hlt, if_pos hlt]
    exact ⟨rfl, rfl⟩
  · intro hlt
    rw [kdb, kcb]
    unfold pixelOutDb pixelOutCb
    rw [if_pos hcov, if_pos hcov, if_neg (by simp [hlt]), if_neg (by simp [hlt])]
    exact ⟨rfl, rfl⟩

/-- Concrete varying interpolation (unit varyings) for the C7 witness. -/
def c7Interp : (F × F × F) → Unit → Unit → Unit → Unit := fun _ _ _ _ => ()

/-- Concrete fragment stage (solid red) for the C7 witness. -/
def c7Frag : Unit → ℕ × ℕ × ℕ := fun _ => (255, 0, 0)

/-- Concrete triangle for the C7 witness: screen points (0,0), (3,0),
(0,3), all clip z = 1/2. -/
def c7Tri : TriIn Unit := ⟨(0, 0), (3, 0), (0, 3), 1/2, 1/2, 1/2, (), (), ()⟩

/-- Concrete 4×4 state for the C7 witness: black color buffer, depth
cleared to 1. -/
def c7State : RastState Unit :=
  ⟨⟨4, 4, [0, 0, 0, 0, 0, 0, 0, 0, 0, 0, 0, 0, 0, 0, 0, 0]⟩,
   ⟨4, 4, [1, 1, 1, 1, 1, 1, 1, 1, 1, 1, 1, 1, 1, 1, 1, 1]⟩, []⟩

/-- Witness for claim C7 at pixel (1,1) of a concrete triangle: the
hypotheses hold and the z-test passes, so depth and color are written. -/
theorem plot_triangle_z_test_witness :
    DimsOk c7State 4 4 ∧ CoveredAt c7Tri 1 1 ∧
    ltF (zDepthAt c7Tri (tri_area_signed_squared c7Tri.p0 c7Tri.p1 c7Tri.p2) 1 1)
      (c7State.db.get_pixel (1 : ℤ).toNat (1 : ℤ).toNat) = true ∧
    ((plot_triangle c7Interp c7Frag c7Tri c7State).db.get_pixel (1 : ℤ).toNat (1 : ℤ).toNat
        = (zDepthAt c7Tri (tri_area_signed_squared c7Tri.p0 c7Tri.p1 c7Tri.p2) 1 1).getD 0 ∧
     (plot_triangle c7Interp c7Frag c7Tri c7State).cb.get_pixel (1 : ℤ).toNat (1 : ℤ).toNat
        = fragColorAt c7Interp c7Frag c7Tri
            (tri_area_signed_squared c7Tri.p0 c7Tri.p1 c7Tri.p2) 1 1) := by
  have hd : DimsOk c7State 4 4 := by norm_num [DimsOk, c7State]
  have hcov : CoveredAt c7Tri 1 1 := by
    norm_num [CoveredAt, efA, efB, efC, tri_area_signed_squared, perp_dot, c7Tri]
  have hlt : ltF (zDepthAt c7Tri (tri_area_signed_squared c7Tri.p0 c7Tri.p1 c7Tri.p2) 1 1)
      (c7State.db.get_pixel (1 : ℤ).toNat (1 : ℤ).toNat) = true := by
    norm_num [ltF, zDepthAt, coordsAt, interpolatedF, addF, mulF, divF, efA, efB, efC,
      tri_area_signed_squared, perp_dot, c7Tri, c7State, Framebuffer.get_pixel, List.getD]
  have hbx0 : (0 : ℤ) ≤ (bbOf c7Tri).origin.1 := by
    norm_num [bbOf, tri_bounding_box, truncV, truncQ, c7Tri]
  have hbx1 : (bbOf c7Tri).origin.1 + (bbOf c7Tri).width < ((4 : ℕ) : ℤ) := by
    norm_num [bbOf, tri_bounding_box, truncV, truncQ, c7Tri]
  have hby0 : (0 : ℤ) ≤ (bbOf c7Tri).origin.2 := by
    norm_num [bbOf, tri_bounding_box, truncV, truncQ, c7Tri]
  have hby1 : (bbOf c7Tri).origin.2 + (bbOf c7Tri).height < ((4 : ℕ) : ℤ) := by
    norm_num [bbOf, tri_bounding_box, truncV, truncQ, c7Tri]
  have hx1 : (bbOf c7Tri).origin.1 ≤ (1 : ℤ) := by
    norm_num [bbOf, tri_bounding_box, truncV, truncQ, c7Tri]
  have hx2 : (1 : ℤ) ≤ (bbOf c7Tri).origin.1 + (bbOf c7Tri).width := by
    norm_num [bbOf, tri_bounding_box, truncV, truncQ, c7Tri]
  have hy1 : (bbOf c7Tri).origin.2 ≤ (1 : ℤ) := by
    norm_num [bbOf, tri_bounding_box, truncV, truncQ, c7Tri]
  have hy2 : (1 : ℤ) ≤ (bbOf c7Tri).origin.2 + (bbOf c7Tri).height := by
    norm_num [bbOf, tri_bounding_box, truncV, truncQ, c7Tri]
  exact ⟨hd, hcov, hlt,
    (plot_triangle_z_test c7Interp c7Frag c7Tri c7State 4 4 hd hbx0 hbx1 hby0 hby1
      1 1 hx1 hx2 hy1 hy2 hcov).1 hlt⟩
